import Mathlib

/-!
Verification of the automated subscribe bot (`index.js`).

The development shallowly embeds the program: JavaScript numbers are
modelled as exact rationals (`ℚ`), the on-chain integer amounts as `ℕ`,
decimal strings as `List Char`, and the effectful run as a pure function
from an oracle of external outcomes (RPC connectivity, token decimals,
allowance, transaction results, random draws) to a trace of events.
-/

namespace PhrsBot

/-! ## Decimal digit strings

Machinery shared by the models of `Number.prototype.toFixed`,
`Number.prototype.toString`, `parseFloat`, `parseInt` and ethers'
`parseUnits`. -/

/-- The character for a decimal digit value. -/
def digitChar (n : ℕ) : Char := Char.ofNat (48 + n)

/-- Little-endian decimal digits of a natural number, with explicit fuel so
that the definition is structurally recursive. `toDigitsAux n n` is exact. -/
def toDigitsAux : ℕ → ℕ → List ℕ
  | 0, _ => []
  | fuel+1, n => if n = 0 then [] else n % 10 :: toDigitsAux fuel (n / 10)

/-- Little-endian decimal digits of `n` (empty for 0). -/
def digitsLE (n : ℕ) : List ℕ := toDigitsAux n n

/-- Big-endian decimal digits of `n` (empty for 0). -/
def digitsBE (n : ℕ) : List ℕ := (digitsLE n).reverse

/-- Value of a big-endian digit list. -/
def ofDigitsBE (ds : List ℕ) : ℕ := ds.foldl (fun a d => a * 10 + d) 0

/-- Value of a big-endian list of digit characters (callers guarantee the
characters are decimal digits). -/
def digitsToNat (cs : List Char) : ℕ := cs.foldl (fun a c => a * 10 + (c.toNat - 48)) 0

/-- Strict digit-string parser: fails on the empty string and on any
non-digit character. -/
def parseDigits (cs : List Char) : Option ℕ :=
  if cs ≠ [] ∧ cs.all Char.isDigit then some (digitsToNat cs) else none

/-- Decimal rendering of a natural number, as JavaScript renders integers. -/
def renderNat (n : ℕ) : List Char := if n = 0 then ['0'] else (digitsBE n).map digitChar

/-- Left-pad a digit list with zeros to length `d`. -/
def padDigits (d : ℕ) (ds : List ℕ) : List ℕ := List.replicate (d - ds.length) 0 ++ ds

/-- Render the scaled integer `n` (in smallest units) as a decimal string
with exactly `d` fractional digits; this is the shape `toFixed` produces. -/
def renderFixed (n d : ℕ) : List Char :=
  if d = 0 then renderNat n
  else renderNat (n / 10 ^ d) ++ '.' :: (padDigits d (digitsBE (n % 10 ^ d))).map digitChar

/-! ## ethers `parseUnits`

Model of the ethers value parser used at `index.js:132` and `index.js:158`:
it splits the decimal string at the dot, rejects a fractional component
longer than the token's decimals ("fractional component exceeds decimals"),
and otherwise returns `whole * 10^d + frac * 10^(d - frac.length)`.
Malformed strings (a second dot, a non-digit, an empty component) are
rejected; the strings the program feeds it always have non-empty whole and
fractional components, where ethers v5 and v6 agree. -/

/-- ethers `parseUnits` on a decimal string, at `d` decimals. -/
def parseUnitsChars (cs : List Char) (d : ℕ) : Option ℕ :=
  match cs.dropWhile (· != '.') with
  | [] => (parseDigits (cs.takeWhile (· != '.'))).map (· * 10 ^ d)
  | _ :: f =>
    if f.length ≤ d then
      (parseDigits (cs.takeWhile (· != '.'))).bind fun wn =>
        (parseDigits f).map fun fn => wn * 10 ^ d + fn * 10 ^ (d - f.length)
    else none

/-- The exact rational a decimal string denotes (spec-side denotation used
to state the display/submitted round-trip property). -/
def decValChars (cs : List Char) : Option ℚ :=
  match cs.dropWhile (· != '.') with
  | [] => (parseDigits (cs.takeWhile (· != '.'))).map (fun n => (n : ℚ))
  | _ :: f =>
    (parseDigits (cs.takeWhile (· != '.'))).bind fun wn =>
      (parseDigits f).map fun fn => (wn : ℚ) + (fn : ℚ) / 10 ^ f.length

/-- Number of fractional digits of a decimal string (0 when it has no dot). -/
def fracDigitCount (cs : List Char) : ℕ :=
  ((cs.dropWhile (· != '.')).drop 1).length

/-! ## JavaScript number builtins

`index.js` manipulates amounts as JavaScript numbers; the model treats
them as exact rationals. `Number.prototype.toFixed` and
`Number.prototype.toString` are modelled from the ECMAScript
specification, including the exponential-notation regimes: `toFixed`
rejects more than 100 fraction digits with a RangeError and falls back to
`ToString` (exponential notation) for values at or above 10^21, and
`toString` uses exponential notation whenever the decimal-point position
`n` falls outside `-6 < n ≤ 21`. Exponential-notation strings are exactly
the ones ethers' `parseUnits` rejects. -/

/-- Nearest-integer rounding with ties rounded up, as `toFixed` rounds
nonnegative values. -/
def roundHalfUp (x : ℚ) : ℤ := Int.floor (x + 1/2)

/-- Number of decimals of `x`: the first `e` such that `x * 10^e` is an
integer (fuelled search; any value a JavaScript double can hold has fewer
than 1100 fraction digits). -/
def decExpAux (x : ℚ) : ℕ → ℕ → Option ℕ
  | 0, _ => none
  | fuel+1, e =>
    if ((Int.floor (x * 10 ^ e) : ℚ) = x * 10 ^ e) then some e else decExpAux x fuel (e+1)

/-- Smallest number of decimals that represents `x` exactly. -/
def decExp (x : ℚ) : Option ℕ := decExpAux x 1100 0

/-- Drop the trailing zeros of a big-endian digit list (ECMAScript's
`ToString` keeps only the significant digits in its mantissa). -/
def stripTrailingZeros (ds : List ℕ) : List ℕ :=
  (ds.reverse.dropWhile (· = 0)).reverse

/-- The mantissa part of an exponential-notation rendering: the leading
significant digit, then a dot and the remaining significant digits when
there are any. -/
def expMantissa (M : List ℕ) : List Char :=
  match M with
  | [] => ['0']
  | d0 :: rest => digitChar d0 :: (if rest = [] then [] else '.' :: rest.map digitChar)

/-- The exponent part of an exponential-notation rendering, for a value
with `L` integer digits scaled down by `10^e`: `e+NN` or `e-NN`. -/
def expSuffix (L e : ℕ) : List Char :=
  if e + 1 ≤ L then 'e' :: '+' :: renderNat (L - 1 - e)
  else 'e' :: '-' :: renderNat (e - (L - 1))

/-- ECMAScript exponential notation of the value `N / 10^e`
(for example `1.5e+21` or `1e-7`). -/
def expNotationOf (N e : ℕ) : List Char :=
  expMantissa (stripTrailingZeros (digitsBE N)) ++ expSuffix (digitsBE N).length e

/-- Model of `Number.prototype.toFixed` (`index.js:155`): `none` is the
RangeError thrown for more than 100 requested fraction digits; a value at
or above 10^21 is rendered by `ToString`, i.e. in exponential notation;
otherwise the value is rounded to the nearest `d`-digit decimal, ties away
from zero. -/
def toFixedJS (x : ℚ) (d : ℕ) : Option (List Char) :=
  if 100 < d then none
  else if 10 ^ 21 ≤ x then
    (decExp x).map fun e => expNotationOf (Int.floor (x * 10 ^ e)).toNat e
  else
    let m := roundHalfUp (x * 10 ^ d)
    some (if m < 0 then '-' :: renderFixed m.natAbs d else renderFixed m.toNat d)

/-- Model of `Number.prototype.toString` for the nonnegative finite
decimals the program produces: the shortest exact decimal rendering in
fixed notation when the decimal-point position `n = L - e` satisfies
`-6 < n ≤ 21`, and exponential notation otherwise. -/
def numToString (x : ℚ) : Option (List Char) :=
  (decExp x).map fun e =>
    let N := (Int.floor (x * 10 ^ e)).toNat
    if e < (digitsBE N).length + 6 ∧ (digitsBE N).length ≤ 21 + e then renderFixed N e
    else expNotationOf N e

/-- `randomFloat` from `index.js:23`: `Math.random() * (max - min) + min`,
with the `Math.random()` draw `r` (a value in `[0,1)`) made explicit. -/
def randomFloat (lo hi r : ℚ) : ℚ := r * (hi - lo) + lo

/-- `approxMaxNeeded` from `index.js:132`:
`parseUnits(maxVal.toString(), decimalsNum)`. -/
def approxMaxNeeded (maxV : ℚ) (d : ℕ) : Option ℕ :=
  (numToString maxV).bind fun s => parseUnitsChars s d

/-- `MaxUint256`, the unbounded allowance value approved at `index.js:139`. -/
def maxUint256 : ℕ := 2 ^ 256 - 1

/-- Sign prefix of a number literal, with the rest of the string. -/
def readSignQ (cs : List Char) : ℚ × List Char :=
  match cs with
  | [] => (1, [])
  | c :: r => if c = '-' then (-1, r) else if c = '+' then (1, r) else (1, c :: r)

def readSignZ (cs : List Char) : ℤ × List Char :=
  match cs with
  | [] => (1, [])
  | c :: r => if c = '-' then (-1, r) else if c = '+' then (1, r) else (1, c :: r)

/-- Exponent suffix of a JavaScript number literal (0 when absent or
malformed, in which case `parseFloat` stops before it). -/
def readExpJS (cs : List Char) : ℤ :=
  match cs with
  | [] => 0
  | c :: rest =>
    if c = 'e' ∨ c = 'E' then
      match rest with
      | [] => 0
      | c2 :: r2 =>
        if c2 = '-' then
          (if r2.takeWhile Char.isDigit = [] then 0
           else -(digitsToNat (r2.takeWhile Char.isDigit) : ℤ))
        else if c2 = '+' then
          (if r2.takeWhile Char.isDigit = [] then 0
           else (digitsToNat (r2.takeWhile Char.isDigit) : ℤ))
        else
          (if rest.takeWhile Char.isDigit = [] then 0
           else (digitsToNat (rest.takeWhile Char.isDigit) : ℤ))
    else 0

/-- Model of JavaScript `parseFloat` (`index.js:110`): longest numeric
prefix after optional whitespace and sign; `none` is NaN. -/
def parseFloatJS (cs : List Char) : Option ℚ :=
  let sc := readSignQ (cs.dropWhile (fun c => c.isWhitespace))
  let ip := sc.2.takeWhile Char.isDigit
  let cs3 := sc.2.dropWhile Char.isDigit
  let fc : List Char × List Char :=
    match cs3 with
    | [] => ([], [])
    | c :: r =>
      if c = '.' then (r.takeWhile Char.isDigit, r.dropWhile Char.isDigit) else ([], c :: r)
  if ip = [] ∧ fc.1 = [] then none
  else some (sc.1 * ((digitsToNat ip : ℚ) + (digitsToNat fc.1 : ℚ) / 10 ^ fc.1.length)
    * 10 ^ readExpJS fc.2)

def hexVal (c : Char) : ℕ :=
  if c.isDigit then c.toNat - 48
  else if 'a' ≤ c ∧ c ≤ 'f' then c.toNat - 87
  else c.toNat - 55

def isHexDigitChar (c : Char) : Bool :=
  c.isDigit || ('a' ≤ c && c ≤ 'f') || ('A' ≤ c && c ≤ 'F')

def hexToNat (cs : List Char) : ℕ := cs.foldl (fun a c => a * 16 + hexVal c) 0

/-- Model of JavaScript `parseInt` with no radix argument (`index.js:112`):
longest leading digit prefix after optional whitespace and sign, radix 16
after a `0x` prefix; `none` is NaN. -/
def parseIntJS (cs : List Char) : Option ℤ :=
  let sc := readSignZ (cs.dropWhile (fun c => c.isWhitespace))
  match sc.2 with
  | c0 :: c1 :: r =>
    if c0 = '0' ∧ (c1 = 'x' ∨ c1 = 'X') then
      if r.takeWhile isHexDigitChar = [] then none
      else some (sc.1 * (hexToNat (r.takeWhile isHexDigitChar) : ℤ))
    else
      if (c0 :: c1 :: r).takeWhile Char.isDigit = [] then none
      else some (sc.1 * (digitsToNat ((c0 :: c1 :: r).takeWhile Char.isDigit) : ℤ))
  | r =>
    if r.takeWhile Char.isDigit = [] then none
    else some (sc.1 * (digitsToNat (r.takeWhile Char.isDigit) : ℤ))

/-! ## The program as a trace function

`index.js` is an async main with external effects. The model makes every
external outcome an oracle input (RPC connectivity per attempt, the
token's decimals, the current allowance, the approve and subscribe
transaction results, and the `Math.random()` draws per iteration) and
returns the sequence of observable events of the run. `process.exit(1)`
is the terminal `fatalExit` event; reads of `decimals()`, `allowance()`
and `getAddress()` are assumed to answer (their failure paths are not
exercised by any claim). -/

/-- Observable events of a run. -/
inductive Ev where
  | connectAttempt (k : ℕ)
  | connected (k : ℕ)
  | backoffSleep (ms : ℕ)
  | validationError
  | allowanceRead (a : ℕ)
  | approveSubmit (v : ℕ)
  | approveConfirmed
  | subscribeAttempt (i : ℕ) (s : List Char) (n : ℕ)
  | subscribeConfirmed (i : ℕ)
  | subscribeError (i : ℕ)
  | interSleep (sec : ℚ)
  | done
  | fatalExit
deriving DecidableEq, Repr

/-- Environment configuration (`index.js:5-17`): whether all four required
variables are present. The payment value and gas limit do not influence
the event trace. -/
structure Config where
  envOk : Bool
  subscribeValueWei : ℕ
  gasLimit : ℕ

/-- The five operator answers collected at `index.js:104-108`. -/
structure Prompts where
  minStr : List Char
  maxStr : List Char
  loopsStr : List Char
  delayMinStr : List Char
  delayMaxStr : List Char

/-- Oracle of external outcomes. `amountDraw i` and `delayDraw i` are the
`Math.random()` values of iteration `i`, each in `[0,1)`. -/
structure Oracle where
  connectOk : ℕ → Bool
  decimals : ℕ
  allowance : ℕ
  approveOk : Bool
  subscribeOk : ℕ → Bool
  amountDraw : ℕ → ℚ
  delayDraw : ℕ → ℚ

/-- The RPC connect retry loop (`index.js:63-83`): attempts `k`, `k+1`, …
while fuel lasts; a failed attempt 8 exits fatally, earlier failures back
off `2000 * 2^(attempt-1)` ms. Returns the events and whether a session
was established. -/
def connectFrom (ok : ℕ → Bool) : ℕ → ℕ → List Ev × Bool
  | 0, _ => ([], false)
  | fuel+1, k =>
    if ok k then ([.connectAttempt k, .connected k], true)
    else if k = 8 then ([.connectAttempt k, .fatalExit], false)
    else
      let rest := connectFrom ok fuel (k+1)
      (.connectAttempt k :: .backoffSleep (2000 * 2 ^ (k-1)) :: rest.1, rest.2)

/-- The whole connect phase: `MAX_ATTEMPTS = 8` starting from attempt 1. -/
def connectPhase (ok : ℕ → Bool) : List Ev × Bool := connectFrom ok 8 1

/-- The five parses at `index.js:110-114`; `none` when any is NaN, which
is exactly the `some(Number.isNaN)` rejection at `index.js:116`. -/
def parsedOf (p : Prompts) : Option (ℚ × ℚ × ℤ × ℚ × ℚ) :=
  match parseFloatJS p.minStr, parseFloatJS p.maxStr, parseIntJS p.loopsStr,
      parseFloatJS p.delayMinStr, parseFloatJS p.delayMaxStr with
  | some a, some b, some l, some c, some d => some (a, b, l, c, d)
  | _, _, _, _, _ => none

/-- The range validation at `index.js:120`. -/
def badRanges (minV maxV : ℚ) (loops : ℤ) (dmin dmax : ℚ) : Prop :=
  minV ≤ 0 ∨ maxV ≤ 0 ∨ loops ≤ 0 ∨ dmin < 0 ∨ dmax < 0 ∨ maxV < minV ∨ dmax < dmin

instance (minV maxV : ℚ) (loops : ℤ) (dmin dmax : ℚ) :
    Decidable (badRanges minV maxV loops dmin dmax) := by
  unfold badRanges
  infer_instance

/-- The smallest-unit amount of iteration `i` (`index.js:152-158`):
round the draw to the token's decimals and scale. -/
def loopAmt (o : Oracle) (minV maxV : ℚ) (i : ℕ) : ℕ :=
  (roundHalfUp (randomFloat minV maxV (o.amountDraw i) * 10 ^ o.decimals)).toNat

/-- The subscribe loop (`index.js:150-180`) from iteration `i` with `r`
iterations left (`total` is the operator's loop count). A `toFixed` or
`parseUnits` throw is outside the per-iteration try and aborts the run via
the top-level handler; a subscribe/wait failure is caught and logged; the
inter-iteration sleep happens only when `i < total`. After the last
iteration the run logs its final "Selesai" line, the `done` event. -/
def loopGo (o : Oracle) (minV maxV dmin dmax : ℚ) (total : ℕ) : ℕ → ℕ → List Ev
  | _, 0 => [.done]
  | i, r+1 =>
    match toFixedJS (randomFloat minV maxV (o.amountDraw i)) o.decimals with
    | none => [.fatalExit]
    | some s =>
      match parseUnitsChars s o.decimals with
      | none => [.fatalExit]
      | some n =>
        .subscribeAttempt i s n ::
        (if o.subscribeOk i then .subscribeConfirmed i else .subscribeError i) ::
        (if i < total then
          .interSleep (randomFloat dmin dmax (o.delayDraw i)) ::
            loopGo o minV maxV dmin dmax total (i+1) r
        else loopGo o minV maxV dmin dmax total (i+1) r)

/-- The full loop: `for (let i = 1; i <= loops; i++)`. -/
def loopAll (o : Oracle) (minV maxV dmin dmax : ℚ) (loops : ℤ) : List Ev :=
  loopGo o minV maxV dmin dmax loops.toNat 1 loops.toNat

/-- The body of the top-level try (`index.js:97-182`): prompt parsing and
validation, the allowance guard (`index.js:131-145`), then the loop. -/
def mainTry (p : Prompts) (o : Oracle) : List Ev :=
  match parsedOf p with
  | none => [.validationError, .fatalExit]
  | some (minV, maxV, loops, dmin, dmax) =>
    if badRanges minV maxV loops dmin dmax then [.validationError, .fatalExit]
    else
      match approxMaxNeeded maxV o.decimals with
      | none => [.fatalExit]
      | some needed =>
        .allowanceRead o.allowance ::
        (if o.allowance < needed then
          .approveSubmit maxUint256 ::
            (if o.approveOk then
              .approveConfirmed :: loopAll o minV maxV dmin dmax loops
            else [.fatalExit])
        else loopAll o minV maxV dmin dmax loops)

/-- The whole run: env check, then the connect phase (which precedes the
prompts in the source), then the main body when a session exists. -/
def runMain (c : Config) (p : Prompts) (o : Oracle) : List Ev :=
  if c.envOk then
    let pr := connectPhase o.connectOk
    if pr.2 then pr.1 ++ mainTry p o else pr.1
  else [.fatalExit]

/-- Event classifiers. -/
def isConnAttempt : Ev → Bool
  | .connectAttempt _ => true
  | _ => false

def isSubAttempt : Ev → Bool
  | .subscribeAttempt _ _ _ => true
  | _ => false

def isInterSleep : Ev → Bool
  | .interSleep _ => true
  | _ => false

def isApprove : Ev → Bool
  | .approveSubmit _ => true
  | _ => false

/-- A `backoffSleep` event. -/
def isBackoff : Ev → Bool
  | .backoffSleep _ => true
  | _ => false

/-- Events the connect phase can emit. -/
def connEv : Ev → Bool
  | .connectAttempt _ => true
  | .backoffSleep _ => true
  | .connected _ => true
  | .fatalExit => true
  | _ => false

/-- Events the subscribe loop can emit. -/
def loopEv : Ev → Bool
  | .done => true
  | .fatalExit => true
  | .subscribeAttempt _ _ _ => true
  | .subscribeConfirmed _ => true
  | .subscribeError _ => true
  | .interSleep _ => true
  | _ => false

/-- The backoff policy: whenever a sleep directly follows attempt `k`, it
lasts `2000 * 2^(k-1)` ms. -/
def backoffLaw (l : List Ev) : Prop :=
  ∀ i k ms, l[i]? = some (Ev.connectAttempt k) → l[i+1]? = some (Ev.backoffSleep ms) →
    ms = 2000 * 2 ^ (k - 1)

/-- The trace of a run whose 8 connection attempts all fail. -/
def connectFailTrace : List Ev :=
  [.connectAttempt 1, .backoffSleep 2000,
   .connectAttempt 2, .backoffSleep 4000,
   .connectAttempt 3, .backoffSleep 8000,
   .connectAttempt 4, .backoffSleep 16000,
   .connectAttempt 5, .backoffSleep 32000,
   .connectAttempt 6, .backoffSleep 64000,
   .connectAttempt 7, .backoffSleep 128000,
   .connectAttempt 8, .fatalExit]

/-- The parsed operator configuration of a run, plus the parsed
max-needed allowance threshold. -/
structure RunData where
  minV : ℚ
  maxV : ℚ
  loops : ℤ
  dmin : ℚ
  dmax : ℚ
  needed : ℕ

/-- Every `Math.random()` amount draw lies in `[0,1)`. -/
def drawsOk (o : Oracle) : Prop := ∀ i, 0 ≤ o.amountDraw i ∧ o.amountDraw i < 1

/-- Every `Math.random()` delay draw lies in `[0,1)`. -/
def delaysOk (o : Oracle) : Prop := ∀ i, 0 ≤ o.delayDraw i ∧ o.delayDraw i < 1

/-- A run that passes startup: environment present, some connection
attempt succeeds, the operator inputs parse to `rd` and validate, the
max-needed threshold parses to `rd.needed`, an approve (when needed)
confirms, the token's decimals are within `toFixed`'s domain, the random
draws are in `[0,1)`, and the configured maximum is inside the
fixed-notation regime the `toFixed` model covers. -/
structure GoodRun (c : Config) (p : Prompts) (o : Oracle) (rd : RunData) : Prop where
  env : c.envOk = true
  conn : ∃ k, 1 ≤ k ∧ k ≤ 8 ∧ o.connectOk k = true
  parsedIn : parsedOf p = some (rd.minV, rd.maxV, rd.loops, rd.dmin, rd.dmax)
  valid : ¬ badRanges rd.minV rd.maxV rd.loops rd.dmin rd.dmax
  needed : approxMaxNeeded rd.maxV o.decimals = some rd.needed
  approve : o.allowance < rd.needed → o.approveOk = true
  dec100 : o.decimals ≤ 100
  draws : drawsOk o
  delays : delaysOk o
  fixedRegime : rd.maxV < 10 ^ 21

/-! Concrete fixtures used to instantiate the theorems: a configuration
with `min = max = 1`, two iterations, zero delays, a zero-decimals token
with allowance 5, and all draws 0. -/

def cW : Config := ⟨true, 0, 400000⟩

def pW : Prompts := ⟨['1'], ['1'], ['2'], ['0'], ['0']⟩

/-- The same prompts with the loop count answered as `2.9`. -/
def p8W : Prompts := ⟨['1'], ['1'], ['2', '.', '9'], ['0'], ['0']⟩

/-- The same prompts with the loop count answered as `0`. -/
def p0W : Prompts := ⟨['1'], ['1'], ['0'], ['0'], ['0']⟩

def oW : Oracle := ⟨fun _ => true, 0, 5, true, fun _ => true, fun _ => 0, fun _ => 0⟩

/-- `oW` with every connection attempt failing. -/
def oFailW : Oracle := ⟨fun _ => false, 0, 5, true, fun _ => true, fun _ => 0, fun _ => 0⟩

/-- `oW` with a drained allowance and a failing approve transaction. -/
def oApproveFailW : Oracle := ⟨fun _ => true, 0, 0, false, fun _ => true, fun _ => 0, fun _ => 0⟩

def rdW : RunData := ⟨1, 1, 2, 0, 0, 1⟩

/-! ## Properties -/

lemma toDigitsAux_lt10 (fuel n : ℕ) : ∀ e ∈ toDigitsAux fuel n, e < 10 := by
  induction fuel generalizing n with
  | zero => simp [toDigitsAux]
  | succ fuel ih =>
    intro e he
    rw [toDigitsAux] at he
    by_cases hn : n = 0
    · simp [hn] at he
    · simp only [hn, if_false, List.mem_cons] at he
      rcases he with h | h
      · subst h; exact Nat.mod_lt _ (by norm_num)
      · exact ih _ e h

lemma ofDigitsBE_snoc (ds : List ℕ) (d : ℕ) :
    ofDigitsBE (ds ++ [d]) = ofDigitsBE ds * 10 + d := by
  simp [ofDigitsBE, List.foldl_append]

lemma ofDigitsBE_toDigitsAux (fuel n : ℕ) (h : n ≤ fuel) :
    ofDigitsBE (toDigitsAux fuel n).reverse = n := by
  induction fuel generalizing n with
  | zero =>
    have : n = 0 := Nat.le_zero.mp h
    simp [this, toDigitsAux, ofDigitsBE]
  | succ fuel ih =>
    rw [toDigitsAux]
    by_cases hn : n = 0
    · simp [hn, ofDigitsBE]
    · simp only [hn, if_false, List.reverse_cons]
      rw [ofDigitsBE_snoc]
      have hdiv : n / 10 ≤ fuel := by
        have h1 : n / 10 < n := Nat.div_lt_self (Nat.pos_of_ne_zero hn) (by norm_num)
        omega
      rw [ih _ hdiv]
      omega

lemma ofDigitsBE_digitsBE (n : ℕ) : ofDigitsBE (digitsBE n) = n :=
  ofDigitsBE_toDigitsAux n n le_rfl

lemma digitsBE_lt10 (n : ℕ) : ∀ e ∈ digitsBE n, e < 10 := by
  intro e he
  exact toDigitsAux_lt10 n n e (List.mem_reverse.mp he)

lemma toDigitsAux_length (fuel n d : ℕ) (hn : n ≤ fuel) (h : n < 10 ^ d) :
    (toDigitsAux fuel n).length ≤ d := by
  induction fuel generalizing n d with
  | zero => simp [toDigitsAux]
  | succ fuel ih =>
    rw [toDigitsAux]
    by_cases hz : n = 0
    · simp [hz]
    · simp only [hz, if_false, List.length_cons]
      cases d with
      | zero => simp at h; omega
      | succ d =>
        have hdiv10 : n / 10 < 10 ^ d := by
          refine Nat.div_lt_of_lt_mul ?_
          calc n < 10 ^ (d + 1) := h
            _ = 10 * 10 ^ d := by rw [pow_succ]; ring
        have hfuel : n / 10 ≤ fuel := by
          have : n / 10 < n := Nat.div_lt_self (Nat.pos_of_ne_zero hz) (by norm_num)
          omega
        have := ih (n / 10) d hfuel hdiv10
        omega

lemma digitsBE_length (n d : ℕ) (h : n < 10 ^ d) : (digitsBE n).length ≤ d := by
  simpa [digitsBE, digitsLE] using toDigitsAux_length n n d le_rfl h

lemma digitChar_toNat (e : ℕ) (h : e < 10) : (digitChar e).toNat = 48 + e := by
  interval_cases e <;> decide

lemma digitChar_isDigit (e : ℕ) (h : e < 10) : (digitChar e).isDigit = true := by
  interval_cases e <;> decide

lemma digitChar_ne_dot (e : ℕ) (h : e < 10) : (digitChar e) ≠ '.' := by
  interval_cases e <;> decide

lemma digitsToNat_map (ds : List ℕ) (h : ∀ e ∈ ds, e < 10) :
    digitsToNat (ds.map digitChar) = ofDigitsBE ds := by
  suffices hgen : ∀ acc : ℕ,
      (ds.map digitChar).foldl (fun a c => a * 10 + (c.toNat - 48)) acc =
      ds.foldl (fun a d => a * 10 + d) acc by
    exact hgen 0
  induction ds with
  | nil => intro acc; rfl
  | cons d ds ih =>
    intro acc
    have hd : d < 10 := h d (List.mem_cons_self d ds)
    have hds : ∀ e ∈ ds, e < 10 := fun e he => h e (List.mem_cons_of_mem d he)
    simp only [List.map_cons, List.foldl_cons, digitChar_toNat d hd]
    have : 48 + d - 48 = d := by omega
    rw [this]
    exact ih hds (acc * 10 + d)

lemma ofDigitsBE_pad (k : ℕ) (ds : List ℕ) :
    ofDigitsBE (List.replicate k 0 ++ ds) = ofDigitsBE ds := by
  induction k with
  | zero => simp
  | succ k ih =>
    have : List.replicate (k + 1) 0 ++ ds = 0 :: (List.replicate k 0 ++ ds) := by
      simp [List.replicate_succ]
    rw [this]
    simpa [ofDigitsBE] using ih

lemma parseDigits_renderNat (n : ℕ) : parseDigits (renderNat n) = some n := by
  by_cases hz : n = 0
  · subst hz; decide
  · have hne : digitsBE n ≠ [] := by
      intro hemp
      have := ofDigitsBE_digitsBE n
      rw [hemp] at this
      simp [ofDigitsBE] at this
      exact hz this.symm
    simp only [renderNat, hz, if_false, parseDigits]
    rw [if_pos]
    · congr 1
      rw [digitsToNat_map _ (digitsBE_lt10 n), ofDigitsBE_digitsBE]
    · constructor
      · simpa using hne
      · rw [List.all_eq_true]
        intro c hc
        rcases List.mem_map.mp hc with ⟨e, he, rfl⟩
        exact digitChar_isDigit e (digitsBE_lt10 n e he)

lemma renderNat_no_dot (n : ℕ) : ∀ c ∈ renderNat n, (c != '.') = true := by
  intro c hc
  by_cases hz : n = 0
  · subst hz; simp [renderNat] at hc; subst hc; decide
  · simp only [renderNat, hz, if_false] at hc
    rcases List.mem_map.mp hc with ⟨e, he, rfl⟩
    simpa using digitChar_ne_dot e (digitsBE_lt10 n e he)

lemma takeWhile_append_not (p : Char → Bool) (w : List Char) (x : Char) (f : List Char)
    (hw : ∀ c ∈ w, p c = true) (hx : p x = false) :
    (w ++ x :: f).takeWhile p = w ∧ (w ++ x :: f).dropWhile p = x :: f := by
  induction w with
  | nil => simp [List.takeWhile_cons, List.dropWhile_cons, hx]
  | cons a w ih =>
    have ha : p a = true := hw a (List.mem_cons_self a w)
    have hw2 : ∀ c ∈ w, p c = true := fun c hc => hw c (List.mem_cons_of_mem a hc)
    rcases ih hw2 with ⟨h1, h2⟩
    constructor
    · simp [List.takeWhile_cons, ha, h1]
    · simp [List.dropWhile_cons, ha, h2]

lemma takeWhile_all (p : Char → Bool) (w : List Char) (hw : ∀ c ∈ w, p c = true) :
    w.takeWhile p = w ∧ w.dropWhile p = [] := by
  induction w with
  | nil => simp
  | cons a w ih =>
    have ha : p a = true := hw a (List.mem_cons_self a w)
    have hw2 : ∀ c ∈ w, p c = true := fun c hc => hw c (List.mem_cons_of_mem a hc)
    rcases ih hw2 with ⟨h1, h2⟩
    exact ⟨by simp [List.takeWhile_cons, ha, h1], by simp [List.dropWhile_cons, ha, h2]⟩

lemma renderFixed_zero (n : ℕ) : renderFixed n 0 = renderNat n := by
  simp [renderFixed]

lemma padDigits_length (n d : ℕ) : (padDigits d (digitsBE (n % 10 ^ d))).length = d := by
  have hlt : n % 10 ^ d < 10 ^ d := Nat.mod_lt _ (Nat.pos_pow_of_pos d (by norm_num))
  have hlen : (digitsBE (n % 10 ^ d)).length ≤ d := digitsBE_length _ d hlt
  simp only [padDigits, List.length_append, List.length_replicate]
  omega

lemma renderFixed_frac_length (n d : ℕ) :
    ((padDigits d (digitsBE (n % 10 ^ d))).map digitChar).length = d := by
  rw [List.length_map]
  exact padDigits_length n d

lemma renderFixed_frac_all_digits (n d : ℕ) :
    ∀ c ∈ (padDigits d (digitsBE (n % 10 ^ d))).map digitChar, c.isDigit = true := by
  intro c hc
  rcases List.mem_map.mp hc with ⟨e, he, rfl⟩
  simp only [padDigits] at he
  rcases List.mem_append.mp he with h | h
  · have : e = 0 := List.eq_of_mem_replicate h
    subst this; decide
  · exact digitChar_isDigit e (digitsBE_lt10 _ e h)

lemma renderFixed_frac_val (n d : ℕ) :
    digitsToNat ((padDigits d (digitsBE (n % 10 ^ d))).map digitChar) = n % 10 ^ d := by
  have hall : ∀ e ∈ padDigits d (digitsBE (n % 10 ^ d)), e < 10 := by
    intro e he
    simp only [padDigits] at he
    rcases List.mem_append.mp he with h | h
    · have : e = 0 := List.eq_of_mem_replicate h
      omega
    · exact digitsBE_lt10 _ e h
  rw [digitsToNat_map _ hall, padDigits, ofDigitsBE_pad, ofDigitsBE_digitsBE]

lemma renderFixed_split (n d : ℕ) (hd : d ≠ 0) :
    (renderFixed n d).takeWhile (· != '.') = renderNat (n / 10 ^ d) ∧
    (renderFixed n d).dropWhile (· != '.') =
      '.' :: (padDigits d (digitsBE (n % 10 ^ d))).map digitChar := by
  simp only [renderFixed, hd, if_false]
  exact takeWhile_append_not _ _ _ _ (renderNat_no_dot _) (by decide)

lemma parseDigits_frac (n d : ℕ) (hd : d ≠ 0) :
    parseDigits ((padDigits d (digitsBE (n % 10 ^ d))).map digitChar) = some (n % 10 ^ d) := by
  rw [parseDigits, if_pos, renderFixed_frac_val]
  constructor
  · intro hemp
    have := renderFixed_frac_length n d
    rw [hemp] at this
    simp at this
    exact hd this.symm
  · rw [List.all_eq_true]
    exact renderFixed_frac_all_digits n d

/-- Round-trip: parsing an `e`-decimal rendering at `d ≥ e` decimals yields
the rendered integer scaled by the remaining factor. -/
lemma parseUnits_renderFixed (n e d : ℕ) (h : e ≤ d) :
    parseUnitsChars (renderFixed n e) d = some (n * 10 ^ (d - e)) := by
  by_cases he : e = 0
  · subst he
    rcases takeWhile_all (· != '.') (renderNat n) (renderNat_no_dot n) with ⟨h1, h2⟩
    rw [renderFixed_zero]
    simp only [parseUnitsChars, h1, h2, parseDigits_renderNat, Option.map_some']
    norm_num
  · rcases renderFixed_split n e he with ⟨h1, h2⟩
    simp only [parseUnitsChars, h1, h2, renderFixed_frac_length, parseDigits_renderNat,
      parseDigits_frac n e he, if_pos h, Option.some_bind, Option.map_some']
    refine congrArg some ?_
    have hsplit : n = 10 ^ e * (n / 10 ^ e) + n % 10 ^ e := (Nat.div_add_mod n (10 ^ e)).symm
    have hpow : 10 ^ d = 10 ^ e * 10 ^ (d - e) := by
      rw [← pow_add]
      congr 1
      omega
    calc n / 10 ^ e * 10 ^ d + n % 10 ^ e * 10 ^ (d - e)
        = (10 ^ e * (n / 10 ^ e) + n % 10 ^ e) * 10 ^ (d - e) := by rw [hpow]; ring
      _ = n * 10 ^ (d - e) := by rw [← hsplit]

/-- Parsing a rendering with more fractional digits than the parser's
decimals fails (the "fractional component exceeds decimals" error). -/
lemma parseUnits_renderFixed_gt (n e d : ℕ) (h : d < e) :
    parseUnitsChars (renderFixed n e) d = none := by
  have he : e ≠ 0 := by omega
  rcases renderFixed_split n e he with ⟨h1, h2⟩
  simp only [parseUnitsChars, h1, h2, renderFixed_frac_length]
  simp [Nat.not_le.mpr h]

lemma decVal_renderFixed (n e : ℕ) :
    decValChars (renderFixed n e) = some ((n : ℚ) / 10 ^ e) := by
  by_cases he : e = 0
  · subst he
    rcases takeWhile_all (· != '.') (renderNat n) (renderNat_no_dot n) with ⟨h1, h2⟩
    rw [renderFixed_zero]
    simp only [decValChars, h1, h2, parseDigits_renderNat, Option.map_some']
    norm_num
  · rcases renderFixed_split n e he with ⟨h1, h2⟩
    simp only [decValChars, h1, h2, renderFixed_frac_length, parseDigits_renderNat,
      parseDigits_frac n e he, Option.some_bind, Option.map_some']
    refine congrArg some ?_
    have h10 : ((10:ℚ) ^ e) ≠ 0 := by positivity
    have hsplit : (n:ℚ) = 10 ^ e * ((n / 10 ^ e : ℕ) : ℚ) + ((n % 10 ^ e : ℕ) : ℚ) := by
      exact_mod_cast congrArg (fun m : ℕ => (m : ℚ)) (Nat.div_add_mod n (10 ^ e)).symm
    field_simp
    linarith [hsplit]

lemma fracDigitCount_renderFixed (n d : ℕ) : fracDigitCount (renderFixed n d) = d := by
  by_cases hd : d = 0
  · subst hd
    rcases takeWhile_all (· != '.') (renderNat n) (renderNat_no_dot n) with ⟨_, h2⟩
    simp [fracDigitCount, renderFixed_zero, h2]
  · rcases renderFixed_split n d hd with ⟨_, h2⟩
    simp only [fracDigitCount, h2, List.drop_succ_cons, List.drop_zero]
    exact renderFixed_frac_length n d

lemma parseDigits_has_e (cs : List Char) (h : 'e' ∈ cs) : parseDigits cs = none := by
  rw [parseDigits, if_neg]
  rintro ⟨-, hall⟩
  have := List.all_eq_true.mp hall 'e' h
  exact absurd this (by decide)

lemma stripTrailingZeros_mem (ds : List ℕ) : ∀ a ∈ stripTrailingZeros ds, a ∈ ds := by
  intro a ha
  rw [stripTrailingZeros, List.mem_reverse] at ha
  exact List.mem_reverse.mp ((List.dropWhile_sublist _).mem ha)

lemma expSuffix_shape (L e : ℕ) :
    ∃ cs, expSuffix L e = 'e' :: cs ∧ ∀ c ∈ cs, c ≠ '.' := by
  rw [expSuffix]
  by_cases h : e + 1 ≤ L
  · refine ⟨'+' :: renderNat (L - 1 - e), by simp [h], ?_⟩
    intro c hc
    rcases List.mem_cons.mp hc with rfl | hc
    · decide
    · have := renderNat_no_dot _ c hc
      simpa using this
  · refine ⟨'-' :: renderNat (e - (L - 1)), by simp [h], ?_⟩
    intro c hc
    rcases List.mem_cons.mp hc with rfl | hc
    · decide
    · have := renderNat_no_dot _ c hc
      simpa using this

/-- Exponential-notation strings are exactly what ethers `parseUnits`
rejects: the `e` marker is not a digit, so whichever component it lands in
fails to parse. -/
lemma expNotationOf_parseUnits (N e d : ℕ) :
    parseUnitsChars (expNotationOf N e) d = none := by
  have hlt10 : ∀ a ∈ stripTrailingZeros (digitsBE N), a < 10 := fun a ha =>
    digitsBE_lt10 N a (stripTrailingZeros_mem _ a ha)
  rcases expSuffix_shape (digitsBE N).length e with ⟨cs, hsf, hcs⟩
  rw [expNotationOf, hsf]
  rcases hM : stripTrailingZeros (digitsBE N) with _ | ⟨d0, rest⟩
  · rw [expMantissa]
    have hnd : ∀ c ∈ ('0' :: 'e' :: cs : List Char), (c != '.') = true := by
      intro c hc
      rcases List.mem_cons.mp hc with rfl | hc
      · decide
      rcases List.mem_cons.mp hc with rfl | hc
      · decide
      · simpa using hcs c hc
    rcases takeWhile_all (· != '.') _ hnd with ⟨h1, h2⟩
    have hmem : 'e' ∈ ('0' :: 'e' :: cs : List Char) := by simp
    simp only [List.cons_append, List.nil_append] at h1 h2 ⊢
    simp only [parseUnitsChars, h1, h2, parseDigits_has_e _ hmem, Option.map_none']
  · rw [expMantissa]
    have hd0 : d0 < 10 := hlt10 d0 (by rw [hM]; exact List.mem_cons_self _ _)
    by_cases hrest : rest = []
    · subst hrest
      have hnd : ∀ c ∈ (digitChar d0 :: 'e' :: cs : List Char), (c != '.') = true := by
        intro c hc
        rcases List.mem_cons.mp hc with rfl | hc
        · simpa using digitChar_ne_dot d0 hd0
        rcases List.mem_cons.mp hc with rfl | hc
        · decide
        · simpa using hcs c hc
      rcases takeWhile_all (· != '.') _ hnd with ⟨h1, h2⟩
      have hmem : 'e' ∈ (digitChar d0 :: 'e' :: cs : List Char) := by simp
      show parseUnitsChars (digitChar d0 :: 'e' :: cs) d = none
      simp only [parseUnitsChars, h1, h2, parseDigits_has_e _ hmem, Option.map_none']
    · simp only [hrest, if_false]
      have harr : (digitChar d0 :: '.' :: rest.map digitChar) ++ 'e' :: cs =
          [digitChar d0] ++ '.' :: (rest.map digitChar ++ 'e' :: cs) := by
        simp
      rw [harr]
      have hw : ∀ c ∈ ([digitChar d0] : List Char), ((c != '.') = true) := by
        intro c hc
        rcases List.mem_cons.mp hc with rfl | hc
        · simpa using digitChar_ne_dot d0 hd0
        · simp at hc
      rcases takeWhile_append_not (· != '.') [digitChar d0] '.'
        (rest.map digitChar ++ 'e' :: cs) hw (by decide) with ⟨h1, h2⟩
      have hmem : 'e' ∈ rest.map digitChar ++ 'e' :: cs := by simp
      simp only [parseUnitsChars, h1, h2, parseDigits_has_e _ hmem]
      by_cases hlen : (rest.map digitChar ++ 'e' :: cs).length ≤ d
      · simp [hlen]
      · simp [hlen]

lemma toFixedJS_nonneg (x : ℚ) (d : ℕ) (hd : d ≤ 100) (hx : 0 ≤ x) (hx21 : x < 10 ^ 21) :
    toFixedJS x d = some (renderFixed (roundHalfUp (x * 10 ^ d)).toNat d) := by
  have hm : 0 ≤ roundHalfUp (x * 10 ^ d) := by
    refine Int.floor_nonneg.mpr ?_
    have : (0:ℚ) ≤ x * 10 ^ d := by positivity
    linarith
  simp only [toFixedJS, Nat.not_lt.mpr hd, if_false, not_le.mpr hx21]
  rw [if_neg (Int.not_lt.mpr hm)]

lemma decExpAux_spec (x : ℚ) (fuel e0 e : ℕ) (h : decExpAux x fuel e0 = some e) :
    ((Int.floor (x * 10 ^ e) : ℚ)) = x * 10 ^ e := by
  induction fuel generalizing e0 with
  | zero => simp [decExpAux] at h
  | succ fuel ih =>
    rw [decExpAux] at h
    by_cases hc : ((Int.floor (x * 10 ^ e0) : ℚ)) = x * 10 ^ e0
    · rw [if_pos hc] at h
      obtain rfl : e0 = e := Option.some.inj h
      exact hc
    · rw [if_neg hc] at h
      exact ih _ h

lemma decExp_spec (x : ℚ) (e : ℕ) (h : decExp x = some e) :
    ((Int.floor (x * 10 ^ e) : ℚ)) = x * 10 ^ e :=
  decExpAux_spec x 1100 0 e h

lemma floor_toNat_val (x : ℚ) (hx : 0 ≤ x) (e : ℕ) (h : decExp x = some e) :
    (((Int.floor (x * 10 ^ e)).toNat : ℚ)) = x * 10 ^ e := by
  have hfl : ((Int.floor (x * 10 ^ e) : ℚ)) = x * 10 ^ e := decExp_spec x e h
  have hnn : 0 ≤ Int.floor (x * 10 ^ e) := Int.floor_nonneg.mpr (by positivity)
  calc ((Int.floor (x * 10 ^ e)).toNat : ℚ)
      = (((Int.floor (x * 10 ^ e)).toNat : ℤ) : ℚ) := by push_cast; ring
    _ = ((Int.floor (x * 10 ^ e) : ℤ) : ℚ) := by rw [Int.toNat_of_nonneg hnn]
    _ = x * 10 ^ e := hfl

/-- The value `approxMaxNeeded` parses when it succeeds: the configured
maximum, scaled to smallest units at the token's decimal precision (an
exponential-notation `toString` rendering never parses). -/
lemma approxMaxNeeded_val (maxV : ℚ) (d N : ℕ) (h0 : 0 ≤ maxV)
    (h : approxMaxNeeded maxV d = some N) : (N : ℚ) = maxV * 10 ^ d := by
  rcases Option.bind_eq_some.mp h with ⟨s, hs, hparse⟩
  rcases Option.map_eq_some'.mp hs with ⟨e, he, hrender⟩
  have hval := floor_toNat_val maxV h0 e he
  dsimp only at hrender
  by_cases hfix : e < (digitsBE (Int.floor (maxV * 10 ^ e)).toNat).length + 6 ∧
      (digitsBE (Int.floor (maxV * 10 ^ e)).toNat).length ≤ 21 + e
  · rw [if_pos hfix] at hrender
    subst hrender
    by_cases hle : e ≤ d
    · rw [parseUnits_renderFixed _ _ _ hle] at hparse
      obtain rfl : (Int.floor (maxV * 10 ^ e)).toNat * 10 ^ (d - e) = N :=
        Option.some.inj hparse
      push_cast
      rw [hval]
      have hed : e + (d - e) = d := by omega
      rw [mul_assoc, ← pow_add, hed]
    · rw [parseUnits_renderFixed_gt _ _ _ (Nat.not_le.mp hle)] at hparse
      exact absurd hparse (by simp)
  · rw [if_neg hfix] at hrender
    subst hrender
    rw [expNotationOf_parseUnits] at hparse
    exact absurd hparse (by simp)


lemma connectFrom_connEv (ok : ℕ → Bool) (fuel k : ℕ) :
    ∀ e ∈ (connectFrom ok fuel k).1, connEv e = true := by
  induction fuel generalizing k with
  | zero => simp [connectFrom]
  | succ fuel ih =>
    intro e he
    rw [connectFrom] at he
    by_cases h1 : ok k = true
    · simp [h1] at he
      rcases he with rfl | rfl <;> rfl
    · by_cases h2 : k = 8
      · subst h2
        simp [h1] at he
        rcases he with rfl | rfl <;> rfl
      · simp [h1, h2] at he
        rcases he with rfl | rfl | h
        · rfl
        · rfl
        · exact ih (k+1) e h

lemma connectFrom_count (ok : ℕ → Bool) (fuel k : ℕ) :
    ((connectFrom ok fuel k).1.countP isConnAttempt) ≤ fuel := by
  induction fuel generalizing k with
  | zero => simp [connectFrom]
  | succ fuel ih =>
    rw [connectFrom]
    by_cases h1 : ok k = true
    · simp [h1, List.countP_cons, isConnAttempt]
    · by_cases h2 : k = 8
      · subst h2
        simp [h1, List.countP_cons, isConnAttempt]
      · have := ih (k+1)
        simp [h1, h2, List.countP_cons, isConnAttempt]
        omega

lemma connectFrom_backoffLaw (ok : ℕ → Bool) (fuel k : ℕ) :
    backoffLaw (connectFrom ok fuel k).1 := by
  induction fuel generalizing k with
  | zero =>
    intro i j ms h1 _
    simp [connectFrom] at h1
  | succ fuel ih =>
    intro i j ms hA hB
    rw [connectFrom] at hA hB
    by_cases h1 : ok k = true
    · simp only [h1, if_true] at hA hB
      rcases i with _ | _ | i
      · simp at hB
      · simp at hB
      · simp at hA
    · by_cases h2 : k = 8
      · subst h2
        simp only [h1, if_false, if_pos rfl] at hA hB
        rcases i with _ | _ | i
        · simp at hB
        · simp at hB
        · simp at hA
      · simp only [h1, h2, Bool.false_eq_true, if_false] at hA hB
        rcases i with _ | _ | i
        · simp only [List.getElem?_cons_zero, Option.some.injEq,
            Ev.connectAttempt.injEq] at hA
          simp only [List.getElem?_cons_succ, List.getElem?_cons_zero, Option.some.injEq,
            Ev.backoffSleep.injEq] at hB
          subst hA
          exact hB.symm
        · simp at hA
        · simp only [List.getElem?_cons_succ] at hA hB
          exact ih (k+1) i j ms hA hB

lemma connectFrom_flag (ok : ℕ → Bool) (fuel k : ℕ) (hk : k + fuel = 9)
    (h : ∃ j, k ≤ j ∧ j ≤ 8 ∧ ok j = true) : (connectFrom ok fuel k).2 = true := by
  induction fuel generalizing k with
  | zero =>
    exfalso
    rcases h with ⟨j, hj1, hj2, _⟩
    omega
  | succ fuel ih =>
    rw [connectFrom]
    by_cases h1 : ok k = true
    · simp [h1]
    · rcases h with ⟨j, hj1, hj2, hj3⟩
      have hjk : j ≠ k := fun he => h1 (he ▸ hj3)
      by_cases h2 : k = 8
      · exfalso
        omega
      · simp only [h1, if_false, h2]
        exact ih (k+1) (by omega) ⟨j, by omega, hj2, hj3⟩

lemma connectPhase_allFail (ok : ℕ → Bool) (h : ∀ k, ok k = false) :
    connectPhase ok = (connectFailTrace, false) := by
  simp only [connectPhase, connectFailTrace]
  norm_num [connectFrom, h]

lemma runMain_connected (c : Config) (p : Prompts) (o : Oracle) (henv : c.envOk = true)
    (hconn : ∃ k, 1 ≤ k ∧ k ≤ 8 ∧ o.connectOk k = true) :
    runMain c p o = (connectPhase o.connectOk).1 ++ mainTry p o := by
  have hflag : (connectPhase o.connectOk).2 = true :=
    connectFrom_flag o.connectOk 8 1 (by norm_num) hconn
  simp [runMain, henv, hflag]


lemma randomFloat_nonneg (lo hi r : ℚ) (h0 : 0 < lo) (hmm : lo ≤ hi) (hr : 0 ≤ r) :
    0 ≤ randomFloat lo hi r := by
  unfold randomFloat
  nlinarith

lemma randomFloat_bounds (lo hi r : ℚ) (hmm : lo ≤ hi) (hr0 : 0 ≤ r) (hr1 : r < 1) :
    lo ≤ randomFloat lo hi r ∧ randomFloat lo hi r ≤ hi := by
  unfold randomFloat
  constructor
  · nlinarith
  · nlinarith

/-- With validated inputs and an in-range draw, iteration `i` formats and
parses without a throw: one unfolding step of the loop. -/
lemma loopGo_succ (o : Oracle) (minV maxV dmin dmax : ℚ) (total i r : ℕ)
    (hd : o.decimals ≤ 100) (h0 : 0 < minV) (hmm : minV ≤ maxV)
    (hmax21 : maxV < 10 ^ 21) (hdr : 0 ≤ o.amountDraw i) (hdr1 : o.amountDraw i < 1) :
    loopGo o minV maxV dmin dmax total i (r+1) =
      Ev.subscribeAttempt i (renderFixed (loopAmt o minV maxV i) o.decimals)
          (loopAmt o minV maxV i) ::
        (if o.subscribeOk i then Ev.subscribeConfirmed i else Ev.subscribeError i) ::
        (if i < total then
          Ev.interSleep (randomFloat dmin dmax (o.delayDraw i)) ::
            loopGo o minV maxV dmin dmax total (i+1) r
        else loopGo o minV maxV dmin dmax total (i+1) r) := by
  have hx : 0 ≤ randomFloat minV maxV (o.amountDraw i) :=
    randomFloat_nonneg _ _ _ h0 hmm hdr
  have hx21 : randomFloat minV maxV (o.amountDraw i) < 10 ^ 21 :=
    lt_of_le_of_lt (randomFloat_bounds minV maxV _ hmm hdr hdr1).2 hmax21
  simp only [loopGo, toFixedJS_nonneg _ o.decimals hd hx hx21,
    parseUnits_renderFixed _ _ _ (le_refl o.decimals), Nat.sub_self, pow_zero, mul_one,
    loopAmt]

lemma loopGo_count_attempts (o : Oracle) (minV maxV dmin dmax : ℚ) (total : ℕ)
    (hd : o.decimals ≤ 100) (h0 : 0 < minV) (hmm : minV ≤ maxV) (hdraws : drawsOk o)
    (hmax21 : maxV < 10 ^ 21) :
    ∀ r i, (loopGo o minV maxV dmin dmax total i r).countP isSubAttempt = r := by
  intro r
  induction r with
  | zero => intro i; simp [loopGo, isSubAttempt]
  | succ r ih =>
    intro i
    rw [loopGo_succ o minV maxV dmin dmax total i r hd h0 hmm hmax21 (hdraws i).1 (hdraws i).2]
    by_cases hsub : o.subscribeOk i = true
    · by_cases hlt : i < total
      · simp [hsub, hlt, List.countP_cons, isSubAttempt, ih (i+1)]
      · simp [hsub, hlt, List.countP_cons, isSubAttempt, ih (i+1)]
    · by_cases hlt : i < total
      · simp [hsub, hlt, List.countP_cons, isSubAttempt, ih (i+1)]
      · simp [hsub, hlt, List.countP_cons, isSubAttempt, ih (i+1)]

lemma loopGo_done (o : Oracle) (minV maxV dmin dmax : ℚ) (total : ℕ)
    (hd : o.decimals ≤ 100) (h0 : 0 < minV) (hmm : minV ≤ maxV) (hdraws : drawsOk o)
    (hmax21 : maxV < 10 ^ 21) :
    ∀ r i, Ev.done ∈ loopGo o minV maxV dmin dmax total i r := by
  intro r
  induction r with
  | zero => intro i; simp [loopGo]
  | succ r ih =>
    intro i
    rw [loopGo_succ o minV maxV dmin dmax total i r hd h0 hmm hmax21 (hdraws i).1 (hdraws i).2]
    by_cases hlt : i < total
    · simp only [hlt, if_true, List.mem_cons]
      right; right; right
      exact ih (i+1)
    · simp only [hlt, if_false, List.mem_cons]
      right; right
      exact ih (i+1)

lemma loopGo_loopEv (o : Oracle) (minV maxV dmin dmax : ℚ) (total : ℕ) :
    ∀ r i, ∀ e ∈ loopGo o minV maxV dmin dmax total i r, loopEv e = true := by
  intro r
  induction r with
  | zero => intro i e he; simp [loopGo] at he; subst he; rfl
  | succ r ih =>
    intro i e he
    rw [loopGo] at he
    rcases htf : toFixedJS (randomFloat minV maxV (o.amountDraw i)) o.decimals with _ | s
    · rw [htf] at he
      dsimp only at he
      simp at he
      subst he; rfl
    · rw [htf] at he
      dsimp only at he
      rcases hpu : parseUnitsChars s o.decimals with _ | n
      · rw [hpu] at he
        dsimp only at he
        simp at he
        subst he; rfl
      · rw [hpu] at he
        dsimp only at he
        simp only [List.mem_cons] at he
        rcases he with rfl | he
        · rfl
        rcases he with rfl | he
        · by_cases hsub : o.subscribeOk i = true <;> simp [hsub, loopEv]
        by_cases hlt : i < total
        · rw [if_pos hlt] at he
          simp only [List.mem_cons] at he
          rcases he with rfl | he
          · rfl
          · exact ih (i+1) e he
        · rw [if_neg hlt] at he
          exact ih (i+1) e he


lemma loopGo_count_sleeps (o : Oracle) (minV maxV dmin dmax : ℚ) (total : ℕ)
    (hd : o.decimals ≤ 100) (h0 : 0 < minV) (hmm : minV ≤ maxV) (hdraws : drawsOk o)
    (hmax21 : maxV < 10 ^ 21) :
    ∀ r i, i + r = total + 1 →
      (loopGo o minV maxV dmin dmax total i r).countP isInterSleep = r - 1 := by
  intro r
  induction r with
  | zero => intro i _; simp [loopGo, isInterSleep]
  | succ r ih =>
    intro i hir
    rw [loopGo_succ o minV maxV dmin dmax total i r hd h0 hmm hmax21 (hdraws i).1 (hdraws i).2]
    rcases r with _ | r
    · have hnlt : ¬ i < total := by omega
      simp only [hnlt, if_false]
      by_cases hsub : o.subscribeOk i = true <;>
        simp [hsub, List.countP_cons, isInterSleep, loopGo]
    · have hlt : i < total := by omega
      have := ih (i+1) (by omega)
      simp only [hlt, if_true]
      by_cases hsub : o.subscribeOk i = true <;>
        simp [hsub, List.countP_cons, isInterSleep, this]

lemma loopGo_sleep_bounds (o : Oracle) (minV maxV dmin dmax : ℚ) (total : ℕ)
    (hd : o.decimals ≤ 100) (h0 : 0 < minV) (hmm : minV ≤ maxV) (hdraws : drawsOk o)
    (hmax21 : maxV < 10 ^ 21) (hdel : delaysOk o) (hdd : dmin ≤ dmax) :
    ∀ r i, ∀ q, Ev.interSleep q ∈ loopGo o minV maxV dmin dmax total i r →
      dmin ≤ q ∧ q ≤ dmax := by
  intro r
  induction r with
  | zero => intro i q hq; simp [loopGo] at hq
  | succ r ih =>
    intro i q hq
    rw [loopGo_succ o minV maxV dmin dmax total i r hd h0 hmm hmax21 (hdraws i).1 (hdraws i).2] at hq
    simp only [List.mem_cons] at hq
    rcases hq with h | h
    · exact absurd h (by simp)
    rcases h with h | h
    · by_cases hsub : o.subscribeOk i = true <;> simp [hsub] at h
    by_cases hlt : i < total
    · rw [if_pos hlt] at h
      simp only [List.mem_cons] at h
      rcases h with h | h
      · obtain rfl : q = randomFloat dmin dmax (o.delayDraw i) := (Ev.interSleep.injEq _ _).mp h
        exact randomFloat_bounds dmin dmax _ hdd (hdel i).1 (hdel i).2
      · exact ih (i+1) q h
    · rw [if_neg hlt] at h
      exact ih (i+1) q h

lemma loopGo_sleep_mem (o : Oracle) (minV maxV dmin dmax : ℚ) (total : ℕ)
    (hd : o.decimals ≤ 100) (h0 : 0 < minV) (hmm : minV ≤ maxV) (hdraws : drawsOk o)
    (hmax21 : maxV < 10 ^ 21) :
    ∀ r i j, i ≤ j → j < i + r → j < total →
      Ev.interSleep (randomFloat dmin dmax (o.delayDraw j)) ∈
        loopGo o minV maxV dmin dmax total i r := by
  intro r
  induction r with
  | zero => intro i j h1 h2 _; omega
  | succ r ih =>
    intro i j h1 h2 h3
    rw [loopGo_succ o minV maxV dmin dmax total i r hd h0 hmm hmax21 (hdraws i).1 (hdraws i).2]
    by_cases hij : j = i
    · subst hij
      simp [h3]
    · have hj1 : i + 1 ≤ j := by omega
      have hmem := ih (i+1) j hj1 (by omega) h3
      by_cases hlt : i < total
      · simp only [hlt, if_true, List.mem_cons]
        right; right; right; exact hmem
      · simp only [hlt, if_false, List.mem_cons]
        right; right; exact hmem

lemma loopGo_iter_events (o : Oracle) (minV maxV dmin dmax : ℚ) (total : ℕ)
    (hd : o.decimals ≤ 100) (h0 : 0 < minV) (hmm : minV ≤ maxV) (hdraws : drawsOk o)
    (hmax21 : maxV < 10 ^ 21) :
    ∀ r i j, i ≤ j → j < i + r →
      (Ev.subscribeAttempt j (renderFixed (loopAmt o minV maxV j) o.decimals)
          (loopAmt o minV maxV j) ∈ loopGo o minV maxV dmin dmax total i r) ∧
      (o.subscribeOk j = true → Ev.subscribeConfirmed j ∈ loopGo o minV maxV dmin dmax total i r) ∧
      (o.subscribeOk j = false → Ev.subscribeError j ∈ loopGo o minV maxV dmin dmax total i r) := by
  intro r
  induction r with
  | zero => intro i j h1 h2; omega
  | succ r ih =>
    intro i j h1 h2
    rw [loopGo_succ o minV maxV dmin dmax total i r hd h0 hmm hmax21 (hdraws i).1 (hdraws i).2]
    by_cases hij : j = i
    · subst hij
      refine ⟨List.mem_cons_self _ _, fun hsub => ?_, fun hsub => ?_⟩
      · simp [hsub]
      · simp [hsub]
    · have hj1 : i + 1 ≤ j := by omega
      have hmem := ih (i+1) j hj1 (by omega)
      refine ⟨?_, fun hsub => ?_, fun hsub => ?_⟩
      · by_cases hlt : i < total <;>
          simp only [hlt, if_true, if_false, List.mem_cons] <;> tauto
      · have := hmem.2.1 hsub
        by_cases hlt : i < total <;>
          simp only [hlt, if_true, if_false, List.mem_cons] <;> tauto
      · have := hmem.2.2 hsub
        by_cases hlt : i < total <;>
          simp only [hlt, if_true, if_false, List.mem_cons] <;> tauto

lemma loopGo_attempt_shape (o : Oracle) (minV maxV dmin dmax : ℚ) (total : ℕ)
    (hd : o.decimals ≤ 100) (h0 : 0 < minV) (hmm : minV ≤ maxV) (hdraws : drawsOk o)
    (hmax21 : maxV < 10 ^ 21) :
    ∀ r i j s n, Ev.subscribeAttempt j s n ∈ loopGo o minV maxV dmin dmax total i r →
      s = renderFixed n o.decimals ∧ n = loopAmt o minV maxV j := by
  intro r
  induction r with
  | zero => intro i j s n h; simp [loopGo] at h
  | succ r ih =>
    intro i j s n h
    rw [loopGo_succ o minV maxV dmin dmax total i r hd h0 hmm hmax21 (hdraws i).1 (hdraws i).2] at h
    simp only [List.mem_cons] at h
    rcases h with h | h
    · have := (Ev.subscribeAttempt.injEq _ _ _ _ _ _).mp h
      obtain ⟨rfl, rfl, rfl⟩ := this
      exact ⟨rfl, rfl⟩
    rcases h with h | h
    · by_cases hsub : o.subscribeOk i = true <;> simp [hsub] at h
    by_cases hlt : i < total
    · rw [if_pos hlt] at h
      simp only [List.mem_cons] at h
      rcases h with h | h
      · exact absurd h (by simp)
      · exact ih (i+1) j s n h
    · rw [if_neg hlt] at h
      exact ih (i+1) j s n h

lemma loopGo_last (o : Oracle) (minV maxV dmin dmax : ℚ) (total : ℕ)
    (hd : o.decimals ≤ 100) (h0 : 0 < minV) (hmm : minV ≤ maxV) (hdraws : drawsOk o)
    (hmax21 : maxV < 10 ^ 21) :
    ∀ r i, i + r = total + 1 → 1 ≤ r →
      ∃ pre ev, loopGo o minV maxV dmin dmax total i r =
          pre ++ [Ev.subscribeAttempt total (renderFixed (loopAmt o minV maxV total) o.decimals)
            (loopAmt o minV maxV total), ev, Ev.done] ∧
        (ev = Ev.subscribeConfirmed total ∨ ev = Ev.subscribeError total) := by
  intro r
  induction r with
  | zero => intro i _ h; omega
  | succ r ih =>
    intro i hir _
    rw [loopGo_succ o minV maxV dmin dmax total i r hd h0 hmm hmax21 (hdraws i).1 (hdraws i).2]
    rcases r with _ | r
    · have hit : i = total := by omega
      subst hit
      have hnlt : ¬ i < i := by omega
      refine ⟨[], if o.subscribeOk i then Ev.subscribeConfirmed i else Ev.subscribeError i,
        ?_, ?_⟩
      · simp only [hnlt, if_false, loopGo, List.nil_append]
      · by_cases hsub : o.subscribeOk i = true <;> simp [hsub]
    · have hlt : i < total := by omega
      rcases ih (i+1) (by omega) (by omega) with ⟨pre, ev, heq, hev⟩
      refine ⟨Ev.subscribeAttempt i (renderFixed (loopAmt o minV maxV i) o.decimals)
          (loopAmt o minV maxV i) ::
        (if o.subscribeOk i then Ev.subscribeConfirmed i else Ev.subscribeError i) ::
        Ev.interSleep (randomFloat dmin dmax (o.delayDraw i)) :: pre, ev, ?_, hev⟩
      simp only [hlt, if_true, heq, List.cons_append]


lemma goodRun_facts (c : Config) (p : Prompts) (o : Oracle) (rd : RunData)
    (h : GoodRun c p o rd) :
    0 < rd.minV ∧ 0 < rd.maxV ∧ 0 < rd.loops ∧ 0 ≤ rd.dmin ∧ 0 ≤ rd.dmax ∧
      rd.minV ≤ rd.maxV ∧ rd.dmin ≤ rd.dmax := by
  have hv := h.valid
  unfold badRanges at hv
  push_neg at hv
  exact hv

lemma mainTry_nan (p : Prompts) (o : Oracle) (h : parsedOf p = none) :
    mainTry p o = [Ev.validationError, Ev.fatalExit] := by
  simp [mainTry, h]

lemma mainTry_bad (p : Prompts) (o : Oracle) (a b : ℚ) (l : ℤ) (cc dd : ℚ)
    (h : parsedOf p = some (a, b, l, cc, dd)) (hbad : badRanges a b l cc dd) :
    mainTry p o = [Ev.validationError, Ev.fatalExit] := by
  simp [mainTry, h, hbad]

lemma mainTry_eq (p : Prompts) (o : Oracle) (a b : ℚ) (l : ℤ) (cc dd : ℚ) (needed : ℕ)
    (h : parsedOf p = some (a, b, l, cc, dd)) (hgood : ¬ badRanges a b l cc dd)
    (hneed : approxMaxNeeded b o.decimals = some needed) :
    mainTry p o = Ev.allowanceRead o.allowance ::
      (if o.allowance < needed then
        Ev.approveSubmit maxUint256 ::
          (if o.approveOk then Ev.approveConfirmed :: loopAll o a b cc dd l
           else [Ev.fatalExit])
      else loopAll o a b cc dd l) := by
  simp [mainTry, h, hgood, hneed]

lemma loopAll_shape (o : Oracle) (a b cc dd : ℚ) (l : ℤ) :
    ∀ e ∈ loopAll o a b cc dd l, loopEv e = true := by
  intro e hel
  rw [loopAll] at hel
  exact loopGo_loopEv o a b cc dd l.toNat l.toNat 1 e hel

lemma mainTry_no_connect (p : Prompts) (o : Oracle) :
    ∀ e ∈ mainTry p o, isConnAttempt e = false ∧ isBackoff e = false := by
  intro e he
  rw [mainTry] at he
  rcases hp : parsedOf p with _ | v
  · rw [hp] at he
    dsimp only at he
    simp at he
    rcases he with rfl | rfl <;> exact ⟨rfl, rfl⟩
  · obtain ⟨a, b, l, cc, dd⟩ := v
    rw [hp] at he
    dsimp only at he
    by_cases hbad : badRanges a b l cc dd
    · rw [if_pos hbad] at he
      simp at he
      rcases he with rfl | rfl <;> exact ⟨rfl, rfl⟩
    · rw [if_neg hbad] at he
      rcases hn : approxMaxNeeded b o.decimals with _ | needed
      · rw [hn] at he
        dsimp only at he
        simp at he
        subst he
        exact ⟨rfl, rfl⟩
      · rw [hn] at he
        dsimp only at he
        have hloop : ∀ e ∈ loopAll o a b cc dd l,
            isConnAttempt e = false ∧ isBackoff e = false := by
          intro e hel
          have := loopAll_shape o a b cc dd l e hel
          cases e <;> simp_all [loopEv, isConnAttempt, isBackoff]
        simp only [List.mem_cons] at he
        rcases he with rfl | he
        · exact ⟨rfl, rfl⟩
        by_cases hlt : o.allowance < needed
        · rw [if_pos hlt] at he
          simp only [List.mem_cons] at he
          rcases he with rfl | he
          · exact ⟨rfl, rfl⟩
          by_cases hap : o.approveOk = true
          · rw [if_pos hap] at he
            simp only [List.mem_cons] at he
            rcases he with rfl | he
            · exact ⟨rfl, rfl⟩
            · exact hloop e he
          · rw [if_neg hap] at he
            simp at he
            subst he
            exact ⟨rfl, rfl⟩
        · rw [if_neg hlt] at he
          exact hloop e he

lemma runMain_good (c : Config) (p : Prompts) (o : Oracle) (rd : RunData)
    (h : GoodRun c p o rd) :
    runMain c p o = (connectPhase o.connectOk).1 ++ Ev.allowanceRead o.allowance ::
      ((if o.allowance < rd.needed then [Ev.approveSubmit maxUint256, Ev.approveConfirmed]
        else []) ++ loopAll o rd.minV rd.maxV rd.dmin rd.dmax rd.loops) := by
  rw [runMain_connected c p o h.env h.conn,
    mainTry_eq p o _ _ _ _ _ _ h.parsedIn h.valid h.needed]
  by_cases hlt : o.allowance < rd.needed
  · rw [if_pos hlt, if_pos (h.approve hlt), if_pos hlt]
    simp
  · rw [if_neg hlt, if_neg hlt]
    simp


lemma parseFloat_one : parseFloatJS ['1'] = some 1 := by
  simp +decide [parseFloatJS, readSignQ, readExpJS, digitsToNat]

lemma parseFloat_zero : parseFloatJS ['0'] = some 0 := by
  simp +decide [parseFloatJS, readSignQ, readExpJS, digitsToNat]

lemma parseInt_two : parseIntJS ['2'] = some 2 := by decide

lemma parseInt_zero : parseIntJS ['0'] = some 0 := by decide

lemma parsedOf_pW : parsedOf pW = some (1, 1, 2, 0, 0) := by
  simp only [parsedOf, pW, parseFloat_one, parseFloat_zero, parseInt_two]

lemma parsedOf_p8W : parsedOf p8W = some (1, 1, 2, 0, 0) := by
  have h29 : parseIntJS ['2', '.', '9'] = some 2 := by decide
  simp only [parsedOf, p8W, parseFloat_one, parseFloat_zero, h29]

lemma parsedOf_p0W : parsedOf p0W = some (1, 1, 0, 0, 0) := by
  simp only [parsedOf, p0W, parseFloat_one, parseFloat_zero, parseInt_zero]

lemma decExp_one : decExp 1 = some 0 := by
  show decExpAux 1 (1099 + 1) 0 = some 0
  rw [decExpAux]
  norm_num

lemma needed_one : approxMaxNeeded 1 0 = some 1 := by
  have h2 : (Int.floor ((1:ℚ) * 10 ^ 0)).toNat = 1 := by norm_num
  rw [approxMaxNeeded, numToString, decExp_one]
  simp only [Option.map_some', Option.some_bind, h2]
  decide

lemma goodRun_W : GoodRun cW pW oW rdW := by
  refine ⟨rfl, ⟨1, le_refl 1, by norm_num, rfl⟩, parsedOf_pW, ?_, ?_, ?_, ?_, ?_, ?_, ?_⟩
  · show ¬ badRanges 1 1 2 0 0
    unfold badRanges
    push_neg
    norm_num
  · exact needed_one
  · intro _
    rfl
  · show (0:ℕ) ≤ 100
    norm_num
  · intro i
    refine ⟨le_refl 0, ?_⟩
    show (0:ℚ) < 1
    norm_num
  · intro i
    refine ⟨le_refl 0, ?_⟩
    show (0:ℚ) < 1
    norm_num
  · show (1:ℚ) < 10 ^ 21
    norm_num

lemma goodRun_8W : GoodRun cW p8W oW rdW := by
  refine ⟨rfl, ⟨1, le_refl 1, by norm_num, rfl⟩, parsedOf_p8W, ?_, ?_, ?_, ?_, ?_, ?_, ?_⟩
  · show ¬ badRanges 1 1 2 0 0
    unfold badRanges
    push_neg
    norm_num
  · exact needed_one
  · intro _
    rfl
  · show (0:ℕ) ≤ 100
    norm_num
  · intro i
    refine ⟨le_refl 0, ?_⟩
    show (0:ℚ) < 1
    norm_num
  · intro i
    refine ⟨le_refl 0, ?_⟩
    show (0:ℚ) < 1
    norm_num
  · show (1:ℚ) < 10 ^ 21
    norm_num


lemma connEv_sub (e : Ev) (h : connEv e = true) : isSubAttempt e = false := by
  cases e <;> simp_all [connEv, isSubAttempt]

lemma connEv_sleep (e : Ev) (h : connEv e = true) : isInterSleep e = false := by
  cases e <;> simp_all [connEv, isInterSleep]

lemma connEv_approve (e : Ev) (h : connEv e = true) : isApprove e = false := by
  cases e <;> simp_all [connEv, isApprove]

lemma loopEv_approve (e : Ev) (h : loopEv e = true) : isApprove e = false := by
  cases e <;> simp_all [loopEv, isApprove]

lemma backoffLaw_fatal : backoffLaw [Ev.fatalExit] := by
  intro i k ms h1 _
  rcases i with _ | i
  · simp at h1
  · simp at h1

lemma backoffLaw_append (a b : List Ev) (ha : backoffLaw a)
    (hb1 : ∀ e ∈ b, isConnAttempt e = false) (hb2 : ∀ e ∈ b, isBackoff e = false) :
    backoffLaw (a ++ b) := by
  intro i k ms h1 h2
  by_cases hia : i < a.length
  · rw [List.getElem?_append_left hia] at h1
    by_cases hia2 : i + 1 < a.length
    · rw [List.getElem?_append_left hia2] at h2
      exact ha i k ms h1 h2
    · rw [List.getElem?_append_right (by omega)] at h2
      have hmem : Ev.backoffSleep ms ∈ b := by
        obtain ⟨hlt, heq⟩ := List.getElem?_eq_some_iff.mp h2
        exact heq ▸ List.getElem_mem hlt
      have := hb2 _ hmem
      simp [isBackoff] at this
  · rw [List.getElem?_append_right (by omega)] at h1
    have hmem : Ev.connectAttempt k ∈ b := by
      obtain ⟨hlt, heq⟩ := List.getElem?_eq_some_iff.mp h1
      exact heq ▸ List.getElem_mem hlt
    have := hb1 _ hmem
    simp [isConnAttempt] at this

lemma runMain_split (c : Config) (p : Prompts) (o : Oracle) :
    runMain c p o = [Ev.fatalExit] ∨
    runMain c p o = (connectPhase o.connectOk).1 ∨
    runMain c p o = (connectPhase o.connectOk).1 ++ mainTry p o := by
  unfold runMain
  by_cases henv : c.envOk = true
  · by_cases hflag : (connectPhase o.connectOk).2 = true
    · right; right; simp [henv, hflag]
    · right; left; simp [henv, hflag]
  · left; simp [henv]

/-- Trace-level facts of every validated run: the loop attempts exactly
`loops` subscriptions, sleeps `loops - 1` times, reaches the final log
line, and no validation error is reported. -/
lemma goodRun_props (c : Config) (p : Prompts) (o : Oracle) (rd : RunData)
    (h : GoodRun c p o rd) :
    (runMain c p o).countP isSubAttempt = rd.loops.toNat ∧
    (runMain c p o).countP isInterSleep = rd.loops.toNat - 1 ∧
    Ev.done ∈ runMain c p o ∧
    Ev.validationError ∉ runMain c p o := by
  obtain ⟨hmin, hmaxp, hloops, hd1, hd2, hmm, hdd⟩ := goodRun_facts c p o rd h
  have hrw := runMain_good c p o rd h
  have hc0 : ∀ q : Ev → Bool, (∀ e, connEv e = true → q e = false) →
      (connectPhase o.connectOk).1.countP q = 0 := by
    intro q hq
    refine List.countP_eq_zero.mpr (fun e he => ?_)
    simp [hq e (connectFrom_connEv o.connectOk 8 1 e he)]
  refine ⟨?_, ?_, ?_, ?_⟩
  · rw [hrw, List.countP_append, hc0 isSubAttempt connEv_sub]
    have hloop : (loopAll o rd.minV rd.maxV rd.dmin rd.dmax rd.loops).countP isSubAttempt
        = rd.loops.toNat := by
      rw [loopAll]
      exact loopGo_count_attempts o rd.minV rd.maxV rd.dmin rd.dmax rd.loops.toNat
        h.dec100 hmin hmm h.draws h.fixedRegime rd.loops.toNat 1
    by_cases hlt : o.allowance < rd.needed <;>
      simp [hlt, List.countP_cons, List.countP_append, isSubAttempt, hloop]
  · rw [hrw, List.countP_append, hc0 isInterSleep connEv_sleep]
    have hloop : (loopAll o rd.minV rd.maxV rd.dmin rd.dmax rd.loops).countP isInterSleep
        = rd.loops.toNat - 1 := by
      rw [loopAll]
      exact loopGo_count_sleeps o rd.minV rd.maxV rd.dmin rd.dmax rd.loops.toNat
        h.dec100 hmin hmm h.draws h.fixedRegime rd.loops.toNat 1 (by omega)
    by_cases hlt : o.allowance < rd.needed <;>
      simp [hlt, List.countP_cons, List.countP_append, isInterSleep, hloop]
  · rw [hrw]
    refine List.mem_append.mpr (Or.inr ?_)
    refine List.mem_cons.mpr (Or.inr ?_)
    refine List.mem_append.mpr (Or.inr ?_)
    rw [loopAll]
    exact loopGo_done o rd.minV rd.maxV rd.dmin rd.dmax rd.loops.toNat
      h.dec100 hmin hmm h.draws h.fixedRegime rd.loops.toNat 1
  · intro hv
    rw [hrw] at hv
    rcases List.mem_append.mp hv with hcp | hm
    · have := connectFrom_connEv o.connectOk 8 1 _ hcp
      simp [connEv] at this
    · simp only [List.mem_cons] at hm
      rcases hm with heq | hm
      · exact absurd heq (by simp)
      rcases List.mem_append.mp hm with ha | hl
      · by_cases hlt : o.allowance < rd.needed <;> simp [hlt] at ha
      · rw [loopAll] at hl
        have := loopGo_loopEv o rd.minV rd.maxV rd.dmin rd.dmax rd.loops.toNat
          rd.loops.toNat 1 _ hl
        simp [loopEv] at this


/-- Claim C2: the endpoint connection procedure makes at most 8 attempts; a
sleep directly after a failed attempt k (k < 8) lasts exactly 2000·2^(k-1)
milliseconds; and if all 8 attempts fail, the run is exactly the fatal
connect trace: it exits fatally and the Allowance Guard (allowance read,
approve) and the submission loop are never invoked. -/
theorem connect_retry_policy (c : Config) (p : Prompts) (o : Oracle) :
    (runMain c p o).countP isConnAttempt ≤ 8 ∧
    backoffLaw (runMain c p o) ∧
    (c.envOk = true → (∀ k, o.connectOk k = false) →
      runMain c p o = connectFailTrace ∧ Ev.fatalExit ∈ runMain c p o ∧
      (∀ a, Ev.allowanceRead a ∉ runMain c p o) ∧
      (∀ v, Ev.approveSubmit v ∉ runMain c p o) ∧
      (∀ i s n, Ev.subscribeAttempt i s n ∉ runMain c p o) ∧
      Ev.done ∉ runMain c p o) := by
  have hcount : (connectPhase o.connectOk).1.countP isConnAttempt ≤ 8 :=
    connectFrom_count o.connectOk 8 1
  have hlaw : backoffLaw (connectPhase o.connectOk).1 :=
    connectFrom_backoffLaw o.connectOk 8 1
  refine ⟨?_, ?_, ?_⟩
  · rcases runMain_split c p o with hrw | hrw | hrw <;> rw [hrw]
    · simp [isConnAttempt]
    · exact hcount
    · rw [List.countP_append]
      have h2 : (mainTry p o).countP isConnAttempt = 0 :=
        List.countP_eq_zero.mpr (fun e he => by
          simp [(mainTry_no_connect p o e he).1])
      omega
  · rcases runMain_split c p o with hrw | hrw | hrw <;> rw [hrw]
    · exact backoffLaw_fatal
    · exact hlaw
    · exact backoffLaw_append _ _ hlaw
        (fun e he => (mainTry_no_connect p o e he).1)
        (fun e he => (mainTry_no_connect p o e he).2)
  · intro henv hfail
    have hcp := connectPhase_allFail o.connectOk hfail
    have hrw : runMain c p o = connectFailTrace := by
      simp [runMain, henv, hcp]
    refine ⟨hrw, ?_, ?_, ?_, ?_, ?_⟩
    · rw [hrw]; decide
    · intro a ha
      rw [hrw] at ha
      simp [connectFailTrace] at ha
    · intro v hv
      rw [hrw] at hv
      simp [connectFailTrace] at hv
    · intro i s n hs
      rw [hrw] at hs
      simp [connectFailTrace] at hs
    · intro hdn
      rw [hrw] at hdn
      simp [connectFailTrace] at hdn

theorem connect_retry_policy_inst :
    (runMain cW pW oFailW).countP isConnAttempt ≤ 8 ∧
    runMain cW pW oFailW = connectFailTrace ∧
    (∀ a, Ev.allowanceRead a ∉ runMain cW pW oFailW) ∧
    (∀ i s n, Ev.subscribeAttempt i s n ∉ runMain cW pW oFailW) ∧
    Ev.done ∉ runMain cW pW oFailW := by
  have h := connect_retry_policy cW pW oFailW
  have h3 := h.2.2 rfl (fun k => rfl)
  exact ⟨h.1, h3.1, h3.2.2.1, h3.2.2.2.2.1, h3.2.2.2.2.2⟩


/-- Claim C1, counterexample: the claim fails at legal configurations in
two regimes. At a configured token precision of 101 (a legal `uint8`
decimals value) the draw 1/2 from the validated range [0.1, 0.9) has no
display string at all: `toFixed` raises a RangeError. And at precision 6
over the validated range [10^21, 2·10^21), the draw 1.5·10^21 is rendered
by `toFixed` in exponential notation `1.5e+21`, which does not have
exactly 6 fractional digits and is rejected by the parser. -/
theorem toFixed_out_of_domain :
    toFixedJS (randomFloat (1/10) (9/10) (1/2)) 101 = none ∧
    toFixedJS (randomFloat (10 ^ 21) (2 * 10 ^ 21) (1/2)) 6 =
      some ['1', '.', '5', 'e', '+', '2', '1'] ∧
    fracDigitCount ['1', '.', '5', 'e', '+', '2', '1'] ≠ 6 ∧
    parseUnitsChars ['1', '.', '5', 'e', '+', '2', '1'] 6 = none := by
  refine ⟨?_, ?_, by decide, by decide⟩
  · rw [toFixedJS]
    norm_num
  · have hx : randomFloat (10 ^ 21) (2 * 10 ^ 21) (1/2) = (1500000000000000000000 : ℚ) := by
      unfold randomFloat
      norm_num
    have hde : decExp (1500000000000000000000 : ℚ) = some 0 := by
      show decExpAux (1500000000000000000000 : ℚ) (1099 + 1) 0 = some 0
      rw [decExpAux]
      norm_num
    have hfloor : Int.floor ((1500000000000000000000 : ℚ) * 10 ^ 0) =
        (1500000000000000000000 : ℤ) := by norm_num
    rw [hx, toFixedJS, if_neg (by norm_num), if_pos (by norm_num), hde]
    simp only [Option.map_some', hfloor]
    decide

/-- Claim C1, amended: for every configured token decimal precision
d ≤ 100 (the domain of `toFixed`) and every random draw from a validated
range whose maximum is below 10^21 (the fixed-notation regime of
`toFixed`), the generated amount display string is the draw rounded (not
truncated) to exactly d fractional digits, and parsing it at precision d
into the smallest-unit integer succeeds, yielding that rounded value. -/
theorem amount_string_precision (minV maxV r : ℚ) (d : ℕ) (hd : d ≤ 100)
    (h0 : 0 < minV) (hmm : minV ≤ maxV) (hmax21 : maxV < 10 ^ 21)
    (hr0 : 0 ≤ r) (hr1 : r < 1) :
    ∃ s, toFixedJS (randomFloat minV maxV r) d = some s ∧
      fracDigitCount s = d ∧
      parseUnitsChars s d = some (roundHalfUp (randomFloat minV maxV r * 10 ^ d)).toNat := by
  have hx : 0 ≤ randomFloat minV maxV r := randomFloat_nonneg _ _ _ h0 hmm hr0
  have hx21 : randomFloat minV maxV r < 10 ^ 21 :=
    lt_of_le_of_lt (randomFloat_bounds minV maxV r hmm hr0 hr1).2 hmax21
  refine ⟨renderFixed (roundHalfUp (randomFloat minV maxV r * 10 ^ d)).toNat d,
    toFixedJS_nonneg _ d hd hx hx21, fracDigitCount_renderFixed _ d, ?_⟩
  rw [parseUnits_renderFixed _ _ _ (le_refl d)]
  simp

theorem amount_string_precision_inst :
    ∃ s, toFixedJS (randomFloat 1 1 0) 6 = some s ∧
      fracDigitCount s = 6 ∧
      parseUnitsChars s 6 = some (roundHalfUp (randomFloat 1 1 0 * 10 ^ 6)).toNat :=
  amount_string_precision 1 1 0 6 (by norm_num) (by norm_num) (le_refl 1) (by norm_num)
    (le_refl 0) (by norm_num)

/-- Claim C3, counterexample: a run answering `loops = 0` still reports the
fatal validation error, but only after the endpoint connection was already
attempted and established — the source connects (`index.js:63-83`) before
it prompts and validates (`index.js:104-123`), so a network call does
happen before the validation exit. -/
theorem validation_after_connect :
    Ev.connectAttempt 1 ∈ runMain cW p0W oW ∧
    Ev.validationError ∈ runMain cW p0W oW := by
  have hrw := runMain_connected cW p0W oW rfl ⟨1, le_refl 1, by norm_num, rfl⟩
  have hmt : mainTry p0W oW = [Ev.validationError, Ev.fatalExit] :=
    mainTry_bad p0W oW 1 1 0 0 0 parsedOf_p0W (by unfold badRanges; norm_num)
  have hcp : (connectPhase oW.connectOk).1 = [Ev.connectAttempt 1, Ev.connected 1] := rfl
  rw [hrw, hmt, hcp]
  constructor <;> simp

/-- Claim C3, amended: in every run that establishes a connection, a
malformed (non-numeric) operator input or an invalid range relationship
(max < min, delayMax < delayMin, non-positive loop count) leads to a fatal
validation error and exit before any token interaction: the allowance is
never read, no approve is submitted, no subscription is attempted and the
loop never completes — though after the endpoint connection, which the
source establishes before reading any input. -/
theorem invalid_input_stops_before_token_ops (c : Config) (p : Prompts) (o : Oracle)
    (henv : c.envOk = true)
    (hconn : ∃ k, 1 ≤ k ∧ k ≤ 8 ∧ o.connectOk k = true)
    (hbad : parsedOf p = none ∨
      ∃ a b l cc dd, parsedOf p = some (a, b, l, cc, dd) ∧ badRanges a b l cc dd) :
    Ev.validationError ∈ runMain c p o ∧ Ev.fatalExit ∈ runMain c p o ∧
    (∀ a, Ev.allowanceRead a ∉ runMain c p o) ∧
    (∀ v, Ev.approveSubmit v ∉ runMain c p o) ∧
    (∀ i s n, Ev.subscribeAttempt i s n ∉ runMain c p o) ∧
    Ev.done ∉ runMain c p o := by
  have hmt : mainTry p o = [Ev.validationError, Ev.fatalExit] := by
    rcases hbad with hnan | ⟨a, b, l, cc, dd, hp, hb⟩
    · exact mainTry_nan p o hnan
    · exact mainTry_bad p o a b l cc dd hp hb
  have hrw := runMain_connected c p o henv hconn
  rw [hrw, hmt]
  refine ⟨?_, ?_, ?_, ?_, ?_, ?_⟩
  · simp
  · simp
  · intro a ha
    rcases List.mem_append.mp ha with hcp | hm
    · have := connectFrom_connEv o.connectOk 8 1 _ hcp
      simp [connEv] at this
    · simp at hm
  · intro v hv
    rcases List.mem_append.mp hv with hcp | hm
    · have := connectFrom_connEv o.connectOk 8 1 _ hcp
      simp [connEv] at this
    · simp at hm
  · intro i s n hs
    rcases List.mem_append.mp hs with hcp | hm
    · have := connectFrom_connEv o.connectOk 8 1 _ hcp
      simp [connEv] at this
    · simp at hm
  · intro hdn
    rcases List.mem_append.mp hdn with hcp | hm
    · have := connectFrom_connEv o.connectOk 8 1 _ hcp
      simp [connEv] at this
    · simp at hm

theorem invalid_input_stops_before_token_ops_inst :
    Ev.validationError ∈ runMain cW p0W oW ∧ Ev.fatalExit ∈ runMain cW p0W oW ∧
    (∀ a, Ev.allowanceRead a ∉ runMain cW p0W oW) ∧
    (∀ v, Ev.approveSubmit v ∉ runMain cW p0W oW) ∧
    (∀ i s n, Ev.subscribeAttempt i s n ∉ runMain cW p0W oW) ∧
    Ev.done ∉ runMain cW p0W oW :=
  invalid_input_stops_before_token_ops cW p0W oW rfl ⟨1, le_refl 1, by norm_num, rfl⟩
    (Or.inr ⟨1, 1, 0, 0, 0, parsedOf_p0W, by unfold badRanges; norm_num⟩)


/-- Claim C4: per run the allowance top-up is attempted at most once, and
only when the current allowance is strictly below the configured maximum
parsed at the token's decimal precision (`needed = max · 10^decimals`);
when attempted, the authorization is for the maximum-representable
allowance `MaxUint256` and the run blocks until it confirms before any
subscription; when the allowance suffices, no authorization is submitted. -/
theorem allowance_guard_policy (c : Config) (p : Prompts) (o : Oracle)
    (a b : ℚ) (l : ℤ) (cc dd : ℚ) (needed : ℕ)
    (henv : c.envOk = true)
    (hconn : ∃ k, 1 ≤ k ∧ k ≤ 8 ∧ o.connectOk k = true)
    (hp : parsedOf p = some (a, b, l, cc, dd))
    (hgood : ¬ badRanges a b l cc dd)
    (hneed : approxMaxNeeded b o.decimals = some needed) :
    (runMain c p o).countP isApprove ≤ 1 ∧
    (needed : ℚ) = b * 10 ^ o.decimals ∧
    (o.allowance < needed → Ev.approveSubmit maxUint256 ∈ runMain c p o) ∧
    (¬ o.allowance < needed → ∀ v, Ev.approveSubmit v ∉ runMain c p o) ∧
    (o.allowance < needed → o.approveOk = true →
      ∃ l1 l2, runMain c p o = l1 ++ l2 ∧ Ev.approveConfirmed ∈ l1 ∧
        ∀ i s n, Ev.subscribeAttempt i s n ∉ l1) := by
  have hb0 : 0 < b := by
    unfold badRanges at hgood
    push_neg at hgood
    exact hgood.2.1
  have hrw0 := runMain_connected c p o henv hconn
  have hmt := mainTry_eq p o a b l cc dd needed hp hgood hneed
  have hc0 : (connectPhase o.connectOk).1.countP isApprove = 0 :=
    List.countP_eq_zero.mpr (fun e he => by
      simp [connEv_approve e (connectFrom_connEv o.connectOk 8 1 e he)])
  have hloop0 : (loopAll o a b cc dd l).countP isApprove = 0 :=
    List.countP_eq_zero.mpr (fun e he => by
      simp [loopEv_approve e (loopAll_shape o a b cc dd l e he)])
  have hloopNoApp : ∀ v, Ev.approveSubmit v ∉ loopAll o a b cc dd l := by
    intro v hv
    have := loopAll_shape o a b cc dd l _ hv
    simp [loopEv] at this
  refine ⟨?_, approxMaxNeeded_val b o.decimals needed (le_of_lt hb0) hneed, ?_, ?_, ?_⟩
  · rw [hrw0, hmt, List.countP_append, hc0]
    by_cases hlt : o.allowance < needed
    · by_cases hap : o.approveOk = true
      · simp [hlt, hap, List.countP_cons, List.countP_append, isApprove, hloop0]
      · simp [hlt, hap, List.countP_cons, List.countP_append, isApprove]
    · simp [hlt, List.countP_cons, isApprove, hloop0]
  · intro hlt
    rw [hrw0, hmt]
    refine List.mem_append.mpr (Or.inr ?_)
    simp [hlt]
  · intro hlt v hv
    rw [hrw0, hmt] at hv
    rcases List.mem_append.mp hv with hcp | hm
    · have := connectFrom_connEv o.connectOk 8 1 _ hcp
      simp [connEv] at this
    · rw [if_neg hlt] at hm
      simp only [List.mem_cons] at hm
      rcases hm with heq | hm
      · exact absurd heq (by simp)
      · exact hloopNoApp v hm
  · intro hlt hap
    refine ⟨(connectPhase o.connectOk).1 ++
      [Ev.allowanceRead o.allowance, Ev.approveSubmit maxUint256, Ev.approveConfirmed],
      loopAll o a b cc dd l, ?_, ?_, ?_⟩
    · rw [hrw0, hmt, if_pos hlt, if_pos hap]
      simp
    · refine List.mem_append.mpr (Or.inr ?_)
      simp
    · intro i s n hs
      rcases List.mem_append.mp hs with hcp | hm
      · have := connectFrom_connEv o.connectOk 8 1 _ hcp
        simp [connEv] at this
      · simp at hm

theorem allowance_guard_policy_inst :
    (runMain cW pW oApproveFailW).countP isApprove ≤ 1 ∧
    ((1 : ℕ) : ℚ) = 1 * 10 ^ oApproveFailW.decimals ∧
    Ev.approveSubmit maxUint256 ∈ runMain cW pW oApproveFailW := by
  have h := allowance_guard_policy cW pW oApproveFailW 1 1 2 0 0 1 rfl
    ⟨1, le_refl 1, by norm_num, rfl⟩ parsedOf_pW
    (by unfold badRanges; push_neg; norm_num) needed_one
  exact ⟨h.1, h.2.1, h.2.2.1 (by decide)⟩


/-- Claim C6: between consecutive iterations the orchestrator sleeps a
duration drawn by `randomFloat` from `[delayMin, delayMax]` (the drawn
value always lies in that closed interval); there are exactly
`loopCount - 1` such sleeps, one after each non-final iteration, and after
the final iteration only the outcome and the terminal log follow — no
delay. -/
theorem inter_iteration_delay (c : Config) (p : Prompts) (o : Oracle) (rd : RunData)
    (h : GoodRun c p o rd) :
    (runMain c p o).countP isInterSleep = rd.loops.toNat - 1 ∧
    (∀ q, Ev.interSleep q ∈ runMain c p o → rd.dmin ≤ q ∧ q ≤ rd.dmax) ∧
    (∀ j, 1 ≤ j → j < rd.loops.toNat →
      Ev.interSleep (randomFloat rd.dmin rd.dmax (o.delayDraw j)) ∈ runMain c p o) ∧
    (∃ pre ev, runMain c p o = pre ++ [Ev.subscribeAttempt rd.loops.toNat
        (renderFixed (loopAmt o rd.minV rd.maxV rd.loops.toNat) o.decimals)
        (loopAmt o rd.minV rd.maxV rd.loops.toNat), ev, Ev.done] ∧
      (ev = Ev.subscribeConfirmed rd.loops.toNat ∨
        ev = Ev.subscribeError rd.loops.toNat)) := by
  obtain ⟨hmin, _, hloops, _, _, hmm, hdd⟩ := goodRun_facts c p o rd h
  obtain ⟨_, hscount, _, _⟩ := goodRun_props c p o rd h
  have hrw := runMain_good c p o rd h
  refine ⟨hscount, ?_, ?_, ?_⟩
  · intro q hq
    rw [hrw] at hq
    rcases List.mem_append.mp hq with hcp | hm
    · have := connectFrom_connEv o.connectOk 8 1 _ hcp
      simp [connEv] at this
    · simp only [List.mem_cons] at hm
      rcases hm with heq | hm
      · exact absurd heq (by simp)
      rcases List.mem_append.mp hm with ha | hl
      · by_cases hlt : o.allowance < rd.needed <;> simp [hlt] at ha
      · rw [loopAll] at hl
        exact loopGo_sleep_bounds o rd.minV rd.maxV rd.dmin rd.dmax rd.loops.toNat
          h.dec100 hmin hmm h.draws h.fixedRegime h.delays hdd rd.loops.toNat 1 q hl
  · intro j hj1 hj2
    rw [hrw]
    refine List.mem_append.mpr (Or.inr (List.mem_cons.mpr (Or.inr
      (List.mem_append.mpr (Or.inr ?_)))))
    rw [loopAll]
    exact loopGo_sleep_mem o rd.minV rd.maxV rd.dmin rd.dmax rd.loops.toNat
      h.dec100 hmin hmm h.draws h.fixedRegime rd.loops.toNat 1 j hj1 (by omega) hj2
  · rcases loopGo_last o rd.minV rd.maxV rd.dmin rd.dmax rd.loops.toNat
      h.dec100 hmin hmm h.draws h.fixedRegime rd.loops.toNat 1 (by omega) (by omega) with
      ⟨pre, ev, heq, hev⟩
    refine ⟨(connectPhase o.connectOk).1 ++ Ev.allowanceRead o.allowance ::
      ((if o.allowance < rd.needed then [Ev.approveSubmit maxUint256, Ev.approveConfirmed]
        else []) ++ pre), ev, ?_, hev⟩
    rw [hrw, loopAll, heq]
    simp

theorem inter_iteration_delay_inst :
    (runMain cW pW oW).countP isInterSleep = rdW.loops.toNat - 1 ∧
    Ev.interSleep (randomFloat rdW.dmin rdW.dmax (oW.delayDraw 1)) ∈ runMain cW pW oW := by
  have h := inter_iteration_delay cW pW oW rdW goodRun_W
  exact ⟨h.1, h.2.2.1 1 (le_refl 1) (by decide)⟩


/-- Claim C7: when the allowance top-up is needed and the approve
transaction (or its confirmation) fails, the error is not caught locally:
the run emits the approve submission, reaches the top-level fatal handler
and exits with failure, and the submission loop never starts — no
subscription is attempted and the run never reaches its normal end. -/
theorem approve_failure_fatal (c : Config) (p : Prompts) (o : Oracle)
    (a b : ℚ) (l : ℤ) (cc dd : ℚ) (needed : ℕ)
    (henv : c.envOk = true)
    (hconn : ∃ k, 1 ≤ k ∧ k ≤ 8 ∧ o.connectOk k = true)
    (hp : parsedOf p = some (a, b, l, cc, dd))
    (hgood : ¬ badRanges a b l cc dd)
    (hneed : approxMaxNeeded b o.decimals = some needed)
    (hlt : o.allowance < needed) (hfail : o.approveOk = false) :
    Ev.approveSubmit maxUint256 ∈ runMain c p o ∧
    Ev.fatalExit ∈ runMain c p o ∧
    (∀ i s n, Ev.subscribeAttempt i s n ∉ runMain c p o) ∧
    Ev.done ∉ runMain c p o := by
  have hap : ¬ o.approveOk = true := by simp [hfail]
  have hrw : runMain c p o = (connectPhase o.connectOk).1 ++
      [Ev.allowanceRead o.allowance, Ev.approveSubmit maxUint256, Ev.fatalExit] := by
    rw [runMain_connected c p o henv hconn,
      mainTry_eq p o a b l cc dd needed hp hgood hneed, if_pos hlt, if_neg hap]
  refine ⟨?_, ?_, ?_, ?_⟩
  · rw [hrw]
    refine List.mem_append.mpr (Or.inr ?_)
    simp
  · rw [hrw]
    refine List.mem_append.mpr (Or.inr ?_)
    simp
  · intro i s n hs
    rw [hrw] at hs
    rcases List.mem_append.mp hs with hcp | hm
    · have := connectFrom_connEv o.connectOk 8 1 _ hcp
      simp [connEv] at this
    · simp at hm
  · intro hdn
    rw [hrw] at hdn
    rcases List.mem_append.mp hdn with hcp | hm
    · have := connectFrom_connEv o.connectOk 8 1 _ hcp
      simp [connEv] at this
    · simp at hm

theorem approve_failure_fatal_inst :
    Ev.approveSubmit maxUint256 ∈ runMain cW pW oApproveFailW ∧
    Ev.fatalExit ∈ runMain cW pW oApproveFailW ∧
    Ev.done ∉ runMain cW pW oApproveFailW := by
  have h := approve_failure_fatal cW pW oApproveFailW 1 1 2 0 0 1 rfl
    ⟨1, le_refl 1, by norm_num, rfl⟩ parsedOf_pW
    (by unfold badRanges; push_neg; norm_num) needed_one (by decide) rfl
  exact ⟨h.1, h.2.1, h.2.2.2⟩

/-- Claim C8: a non-integer loop-count answer whose leading characters form
a number is not rejected by validation: `parseInt` truncates `2.9` to 2 and
`3abc` to 3, and a run answering `2.9` proceeds normally with 2 iterations
(no validation error, exactly 2 submission attempts, normal completion) —
even though the specification calls for a positive integer loop count. -/
theorem loops_parseint_truncation :
    parseIntJS ['2', '.', '9'] = some 2 ∧
    parseIntJS ['3', 'a', 'b', 'c'] = some 3 ∧
    Ev.validationError ∉ runMain cW p8W oW ∧
    (runMain cW p8W oW).countP isSubAttempt = 2 ∧
    Ev.done ∈ runMain cW p8W oW := by
  obtain ⟨hcount, _, hdone, hnoval⟩ := goodRun_props cW p8W oW rdW goodRun_8W
  refine ⟨by decide, by decide, hnoval, ?_, hdone⟩
  rw [hcount]
  decide

/-- Claim C10: in every iteration the logged display string and the
submitted integer denote the same quantity: the parsed integer is the
string's decimal value scaled by 10^decimals, and rendering the integer
back at exactly the token's decimals reproduces the display string. -/
theorem display_parsed_roundtrip (c : Config) (p : Prompts) (o : Oracle) (rd : RunData)
    (h : GoodRun c p o rd) :
    ∀ i s n, Ev.subscribeAttempt i s n ∈ runMain c p o →
      parseUnitsChars s o.decimals = some n ∧
      decValChars s = some ((n : ℚ) / 10 ^ o.decimals) ∧
      s = renderFixed n o.decimals := by
  obtain ⟨hmin, _, _, _, _, hmm, _⟩ := goodRun_facts c p o rd h
  intro i s n hmem
  rw [runMain_good c p o rd h] at hmem
  rcases List.mem_append.mp hmem with hcp | hm
  · have := connectFrom_connEv o.connectOk 8 1 _ hcp
    simp [connEv] at this
  · simp only [List.mem_cons] at hm
    rcases hm with heq | hm
    · exact absurd heq (by simp)
    rcases List.mem_append.mp hm with ha | hl
    · by_cases hlt : o.allowance < rd.needed <;> simp [hlt] at ha
    · rw [loopAll] at hl
      obtain ⟨hs, hn⟩ := loopGo_attempt_shape o rd.minV rd.maxV rd.dmin rd.dmax
        rd.loops.toNat h.dec100 hmin hmm h.draws h.fixedRegime rd.loops.toNat 1 i s n hl
      subst hs
      refine ⟨?_, decVal_renderFixed n o.decimals, rfl⟩
      rw [parseUnits_renderFixed _ _ _ (le_refl o.decimals)]
      simp

theorem display_parsed_roundtrip_inst :
    parseUnitsChars (renderFixed (loopAmt oW 1 1 1) oW.decimals) oW.decimals =
      some (loopAmt oW 1 1 1) ∧
    decValChars (renderFixed (loopAmt oW 1 1 1) oW.decimals) =
      some ((loopAmt oW 1 1 1 : ℚ) / 10 ^ oW.decimals) := by
  have hmin : (0:ℚ) < 1 := by norm_num
  have hmem0 := (loopGo_iter_events oW 1 1 0 0 2 (by decide) hmin (le_refl 1)
    goodRun_W.draws (by norm_num) 2 1 1 (le_refl 1) (by norm_num)).1
  have hmemRun : Ev.subscribeAttempt 1 (renderFixed (loopAmt oW 1 1 1) oW.decimals)
      (loopAmt oW 1 1 1) ∈ runMain cW pW oW := by
    rw [runMain_good cW pW oW rdW goodRun_W]
    refine List.mem_append.mpr (Or.inr (List.mem_cons.mpr (Or.inr
      (List.mem_append.mpr (Or.inr ?_)))))
    rw [loopAll]
    exact hmem0
  have h := display_parsed_roundtrip cW pW oW rdW goodRun_W 1 _ _ hmemRun
  exact ⟨h.1, h.2.1⟩

end PhrsBot
